import Mathlib

/-!
Verification of the Coup rules engine.

This file gives a shallow embedding of the engine's core: the player model
(src/unnamed/part_004, part_001, part_002), the match controller
(src/include/Game.hpp, src/src/Game.cpp) and the rule validator
(src/include/ActionValidator.hpp, src/src/ActionValidator.cpp), and proves
or refutes the frozen claims about them.

Conventions of the embedding:
* C++ int counters and balances become Lean Int.
* A player reference (shared_ptr) becomes an index into the match's
  player_list; a null pointer is an Option none; pointer equality between
  two players of one match is index equality.
* A mutating member function that can throw becomes an Option-valued state
  transformer; none models an exception escaping the call. In every such
  function of the source, all throwing checks precede the first mutation,
  so none faithfully means the state is unchanged.
* Console logging (std::cout) has no state effect and is dropped.
-/

namespace Coup

/-- Role tags of the six concrete Player subclasses (src/include/Roles.hpp). -/
inductive Role where
  | Governor
  | Spy
  | Baron
  | General
  | Judge
  | Merchant
  deriving DecidableEq, Repr

/-- Value of the pure virtual role() method: the role's name string, which the
source compares with string equality throughout. -/
def Role.name : Role → String
  | Role.Governor => "Governor"
  | Role.Spy => "Spy"
  | Role.Baron => "Baron"
  | Role.General => "General"
  | Role.Judge => "Judge"
  | Role.Merchant => "Merchant"

/-- One seat: the data members of class Player (src/unnamed/part_004).
The per-player last_arrested_player memo exists in the source but is never
read by any action; it is kept for fidelity. -/
structure Player where
  name : String
  coins : Int
  active : Bool
  sanctioned : Bool
  last_arrested_player : String
  arrest_blocked : Bool
  role : Role
  deriving DecidableEq, Repr

/-- Player constructor defaults (src/unnamed/part_001, Player::Player):
0 coins, active, no sanction, no arrest block. -/
def mkPlayer (name : String) (role : Role) : Player :=
  ⟨name, 0, true, false, "", false, role⟩

/-- The match controller's data members (src/include/Game.hpp, class Game). -/
structure Game where
  player_list : List Player
  current_turn : Nat
  game_started : Bool
  treasury : Int
  last_arrested_player : String
  actions_remaining : Int
  deriving DecidableEq, Repr

/-- Game::Game(): empty roster, turn 0, not started, treasury 50,
nothing arrested yet, one action remaining. -/
def Game.init : Game :=
  ⟨[], 0, false, 50, "", 1⟩

/-- Replaces the player object stored at seat i (no-op out of range, which
has no C++ counterpart since references always denote live seats). -/
def Game.setPlayer (g : Game) (i : Nat) (p : Player) : Game :=
  { g with player_list := g.player_list.set i p }

/-- Applies a member-function-style update to the player object at seat i. -/
def modifyPlayer (g : Game) (i : Nat) (f : Player → Player) : Game :=
  match g.player_list.get? i with
  | none => g
  | some p => g.setPlayer i (f p)

/-- Game::is_player_turn: false on an empty roster, otherwise pointer
equality with the seat at the turn index, i.e. index equality. -/
def is_player_turn (g : Game) (i : Nat) : Bool :=
  !g.player_list.isEmpty && i == g.current_turn

/-- Game::add_to_treasury: rejects a negative amount, else credits it. -/
def add_to_treasury (g : Game) (amount : Int) : Option Game :=
  if amount < 0 then none
  else some { g with treasury := g.treasury + amount }

/-- Game::remove_from_treasury: rejects a negative amount or an overdraft,
else debits it. -/
def remove_from_treasury (g : Game) (amount : Int) : Option Game :=
  if amount < 0 then none
  else if g.treasury < amount then none
  else some { g with treasury := g.treasury - amount }

/-- Player::add_coins on the player at seat i (unchecked in the source). -/
def add_coins (g : Game) (i : Nat) (amount : Int) : Game :=
  modifyPlayer g i (fun q => { q with coins := q.coins + amount })

/-- Player::remove_coins on the player at seat i: throws (none) when the
balance is below the amount. -/
def remove_coins (g : Game) (i : Nat) (amount : Int) : Option Game :=
  match g.player_list.get? i with
  | none => none
  | some q =>
    if q.coins < amount then none
    else some (g.setPlayer i { q with coins := q.coins - amount })

/-- Game::get_actions_remaining / consume_action: decrements the counter
only when it is positive. -/
def consume_action (g : Game) : Game :=
  if g.actions_remaining > 0 then
    { g with actions_remaining := g.actions_remaining - 1 }
  else g

/-- Game::add_extra_actions. -/
def add_extra_actions (g : Game) (count : Int) : Game :=
  { g with actions_remaining := g.actions_remaining + count }

/-- Game::start_turn_actions: a fresh turn has 1 action available. -/
def start_turn_actions (g : Game) : Game :=
  { g with actions_remaining := 1 }

/-- Active-seat test behind the null-and-active pattern
player_list[i] && player_list[i]->is_active(). -/
def isActiveAt (l : List Player) (i : Nat) : Bool :=
  match l.get? i with
  | none => false
  | some p => p.active

/-- Count of active players, as the counting loops of Game::next_turn and
Game::is_game_over compute it. -/
def countActive : List Player → Nat
  | [] => 0
  | p :: l => (if p.active then 1 else 0) + countActive l

/-- Virtual on_turn_start hook. Only Merchant overrides it
(src/unnamed/part_002, Merchant::on_turn_start): with 3 or more coins and a
nonempty treasury, move 1 coin from the treasury to the Merchant. -/
def on_turn_start (g : Game) (j : Nat) : Game :=
  match g.player_list.get? j with
  | none => g
  | some q =>
    match q.role with
    | Role.Merchant =>
      if 3 ≤ q.coins then
        if 1 ≤ g.treasury then add_coins { g with treasury := g.treasury - 1 } j 1
        else g
      else g
    | _ => g

/-- The do-while pointer-advance loop of Game::next_turn, fuelled:
each step moves one seat circularly; it stops on wrapping back to the
starting seat or on the first seat holding an active player. -/
def nextTurnLoop (l : List Player) (start : Nat) : Nat → Nat → Nat
  | cur, 0 => cur
  | cur, fuel + 1 =>
    let nxt := (cur + 1) % l.length
    if nxt = start then nxt
    else if isActiveAt l nxt then nxt
    else nextTurnLoop l start nxt fuel

/-- Final lines of Game::next_turn: fetch the (new) current player and,
when it exists and is active, run its on_turn_start hook and reset the
action counter to 1. -/
def turn_entry (g2 : Game) : Game :=
  match g2.player_list.get? g2.current_turn with
  | none => g2
  | some q =>
    if q.active then start_turn_actions (on_turn_start g2 g2.current_turn)
    else g2

/-- Pointer-advance portion of Game::next_turn: run the do-while loop from
the current seat and enter the seat it lands on. -/
def advance_pointer (g1 : Game) : Game :=
  turn_entry { g1 with
    current_turn := nextTurnLoop g1.player_list g1.current_turn g1.current_turn
      g1.player_list.length }

/-- Game::next_turn (src/src/Game.cpp): with at most one active player it
returns unchanged; otherwise it clears the departing player's sanction and
arrest-block flags (the mandatory-coup warning is logging only), advances
the turn index with the do-while loop, and, when the seat it lands on holds
an active player, runs that player's on_turn_start hook and resets the
action counter to 1. -/
def next_turn (g : Game) : Game :=
  if countActive g.player_list ≤ 1 then g
  else advance_pointer (modifyPlayer g g.current_turn
    (fun q => { q with sanctioned := false, arrest_blocked := false }))

/-- Turn-progression epilogue shared by every committed action:
consume_action(); if (get_actions_remaining() == 0) next_turn(). -/
def finishAction (g : Game) : Game :=
  if (consume_action g).actions_remaining = 0 then next_turn (consume_action g)
  else consume_action g

/-- Player::validate_action: the game exists (always true here), the player
is active, it is their turn, and the game has started. -/
def validate_action (g : Game) (i : Nat) (p : Player) : Bool :=
  p.active && is_player_turn g i && g.game_started

/-- Player::gather before its turn epilogue: validations, sanction check,
then 1 coin moves treasury to player. -/
def gather_effect (g : Game) (i : Nat) : Option Game := do
  let p ← g.player_list.get? i
  if !(validate_action g i p) then none
  else if p.sanctioned then none
  else do
    let g1 ← remove_from_treasury g 1
    some (add_coins g1 i 1)

/-- Player::tax before its turn epilogue: validations, sanction check,
then 3 coins for a Governor and 2 otherwise move treasury to player. -/
def tax_effect (g : Game) (i : Nat) : Option Game := do
  let p ← g.player_list.get? i
  if !(validate_action g i p) then none
  else if p.sanctioned then none
  else do
    let tax_amount : Int := if p.role.name == "Governor" then 3 else 2
    let g1 ← remove_from_treasury g tax_amount
    some (add_coins g1 i tax_amount)

/-- Player::bribe before its turn epilogue: validations, 4-coin check, the
4 coins return to the treasury, and 2 extra actions are granted. -/
def bribe_effect (g : Game) (i : Nat) : Option Game := do
  let p ← g.player_list.get? i
  if !(validate_action g i p) then none
  else if p.coins < 4 then none
  else do
    let g1 ← remove_coins g i 4
    let g2 ← add_to_treasury g1 4
    some (add_extra_actions g2 2)

/-- Player::arrest before its turn epilogue: validations, self-target and
arrest-block checks, the global no-repeat-target check, then the
role-conditioned coin movement (General: none; Merchant: up to 2 coins to
the treasury; others: 1 coin to the arrester) and the update of the global
last-arrested record. -/
def arrest_effect (g : Game) (i j : Nat) : Option Game := do
  let p ← g.player_list.get? i
  let t ← g.player_list.get? j
  if !(validate_action g i p) then none
  else if !t.active then none
  else if i = j then none
  else if p.arrest_blocked then none
  else if g.last_arrested_player == t.name then none
  else do
    let g3 ←
      if t.role.name == "General" then some g
      else if t.role.name == "Merchant" then
        if 0 < t.coins then do
          let coinsToTreasury := min t.coins 2
          let g1 ← remove_coins g j coinsToTreasury
          add_to_treasury g1 coinsToTreasury
        else some g
      else
        if 0 < t.coins then do
          let g1 ← remove_coins g j 1
          some (add_coins g1 i 1)
        else some g
    some { g3 with last_arrested_player := t.name }

/-- Player::sanction before its turn epilogue: validations, self-target
check, the role-conditioned cost (4 against a Judge, else 3) paid into the
treasury, Baron compensation of 1 coin out of the treasury when available,
and the target's sanction flag. -/
def sanction_effect (g : Game) (i j : Nat) : Option Game := do
  let p ← g.player_list.get? i
  let t ← g.player_list.get? j
  if !(validate_action g i p) then none
  else if !t.active then none
  else if i = j then none
  else do
    let cost : Int := if t.role.name == "Judge" then 4 else 3
    if p.coins < cost then none
    else do
      let g1 ← remove_coins g i cost
      let g2 ← add_to_treasury g1 cost
      let g3 ←
        if t.role.name == "Baron" then
          if 1 ≤ g2.treasury then do
            let g2a ← remove_from_treasury g2 1
            some (add_coins g2a j 1)
          else some g2
        else some g2
      some (modifyPlayer g3 j (fun q => { q with sanctioned := true }))

/-- Player::coup before its turn epilogue: validations, 7-coin check,
self-target check, 7 coins paid into the treasury, target deactivated. -/
def coup_effect (g : Game) (i j : Nat) : Option Game := do
  let p ← g.player_list.get? i
  let t ← g.player_list.get? j
  if !(validate_action g i p) then none
  else if !t.active then none
  else if p.coins < 7 then none
  else if i = j then none
  else do
    let g1 ← remove_coins g i 7
    let g2 ← add_to_treasury g1 7
    some (modifyPlayer g2 j (fun q => { q with active := false }))

/-- Baron::invest before its turn epilogue (src/unnamed/part_002): only a
Baron object has this method; validations, 3-coin check, treasury-floor
check, then pay 3 in and take 6 out. -/
def invest_effect (g : Game) (i : Nat) : Option Game := do
  let p ← g.player_list.get? i
  if !(p.role == Role.Baron) then none
  else if !(validate_action g i p) then none
  else if p.coins < 3 then none
  else if g.treasury < 6 then none
  else do
    let g1 ← remove_coins g i 3
    let g2 ← add_to_treasury g1 3
    let g3 ← remove_from_treasury g2 6
    some (add_coins g3 i 6)

/-- Committed gather: effect then the consume/advance epilogue. -/
def gather (g : Game) (i : Nat) : Option Game :=
  (gather_effect g i).map finishAction

/-- Committed tax. -/
def tax (g : Game) (i : Nat) : Option Game :=
  (tax_effect g i).map finishAction

/-- Committed bribe. -/
def bribe (g : Game) (i : Nat) : Option Game :=
  (bribe_effect g i).map finishAction

/-- Committed arrest. -/
def arrest (g : Game) (i j : Nat) : Option Game :=
  (arrest_effect g i j).map finishAction

/-- Committed sanction. -/
def sanction (g : Game) (i j : Nat) : Option Game :=
  (sanction_effect g i j).map finishAction

/-- Committed coup. -/
def coup (g : Game) (i j : Nat) : Option Game :=
  (coup_effect g i j).map finishAction

/-- Committed invest. -/
def invest (g : Game) (i : Nat) : Option Game :=
  (invest_effect g i).map finishAction

/-- Spy::block_arrest_ability: validations and the self-target check, then
the target's arrest-block flag is set; no action is consumed and the turn
does not advance. -/
def block_arrest_ability (g : Game) (i j : Nat) : Option Game := do
  let p ← g.player_list.get? i
  let t ← g.player_list.get? j
  if !(validate_action g i p) then none
  else if !t.active then none
  else if i = j then none
  else some (modifyPlayer g j (fun q => { q with arrest_blocked := true }))

/-- Spy::investigate: validations and the self-target check only; the state
is untouched and the turn does not advance. -/
def investigate (g : Game) (i j : Nat) : Option Game := do
  let p ← g.player_list.get? i
  let t ← g.player_list.get? j
  if !(validate_action g i p) then none
  else if !t.active then none
  else if i = j then none
  else some g

/-- Game::add_player: rejects a seventh seat, else appends. -/
def add_player (g : Game) (name : String) (role : Role) : Option Game :=
  if 6 ≤ g.player_list.length then none
  else some { g with player_list := g.player_list ++ [mkPlayer name role] }

/-- Game::start_game: rejects fewer than two seats, else sets the flag. -/
def start_game (g : Game) : Option Game :=
  if g.player_list.length < 2 then none
  else some { g with game_started := true }

/-- The catalog of turn-consuming commit operations named by the treasury
claim: Gather, Tax (both role variants run through the one tax method),
Bribe, Arrest (all role variants), Sanction, Coup, Invest. -/
inductive ActionCommit where
  | gather (i : Nat)
  | tax (i : Nat)
  | bribe (i : Nat)
  | arrest (i j : Nat)
  | sanction (i j : Nat)
  | coup (i j : Nat)
  | invest (i : Nat)
  deriving DecidableEq, Repr

/-- Dispatch of a committed action. -/
def commit : ActionCommit → Game → Option Game
  | ActionCommit.gather i, g => gather g i
  | ActionCommit.tax i, g => tax g i
  | ActionCommit.bribe i, g => bribe g i
  | ActionCommit.arrest i j, g => arrest g i j
  | ActionCommit.sanction i j, g => sanction g i j
  | ActionCommit.coup i j, g => coup g i j
  | ActionCommit.invest i, g => invest g i

/-- A sequence of committed actions, each feeding the next. -/
def commitSeq : List ActionCommit → Game → Option Game
  | [], g => some g
  | a :: rest, g => (commit a g).bind (commitSeq rest)

/-- Outcome record of the validator (src/include/ActionValidator.hpp,
struct ValidationResult). -/
structure ValidationResult where
  isValid : Bool
  errorMessage : String
  deriving DecidableEq, Repr

/-- ValidationResult::valid(). -/
def ValidationResult.valid : ValidationResult :=
  ⟨true, ""⟩

/-- ValidationResult::invalid(message). -/
def ValidationResult.invalid (message : String) : ValidationResult :=
  ⟨false, message⟩

/-- ActionValidator::getActionCost: the static base-cost table. -/
def getActionCost (action : String) : Int :=
  if action == "Gather" then 0
  else if action == "Tax" then 0
  else if action == "Bribe" then 4
  else if action == "Arrest" then 0
  else if action == "Coup" then 7
  else if action == "Investigate" then 0
  else if action == "Block Arrest" then 0
  else if action == "End Turn" then 0
  else if action == "Sanction" then 3
  else if action == "Invest" then 3
  else 0

/-- ActionValidator::requiresTarget. -/
def requiresTarget (action : String) : Bool :=
  action == "Arrest" || action == "Sanction" || action == "Coup" ||
    action == "Investigate" || action == "Block Arrest"

/-- ActionValidator::validateCoins. The special Sanction branch never reads
a target: it tests only the base cost of 3. -/
def validateCoins (action : String) (p : Player) : ValidationResult :=
  let requiredCoins := getActionCost action
  if action == "Sanction" && requiredCoins == 3 then
    if p.coins < 3 then ValidationResult.invalid "Need at least 3 coins for sanction"
    else ValidationResult.valid
  else if requiredCoins > 0 && decide (p.coins < requiredCoins) then
    ValidationResult.invalid ("Need " ++ toString requiredCoins ++ " coins for " ++ action)
  else ValidationResult.valid

/-- ActionValidator::validatePlayerState. -/
def validatePlayerState (p : Player) : ValidationResult :=
  if !p.active then ValidationResult.invalid "Player is not active"
  else ValidationResult.valid

/-- ActionValidator::validateGameState: the game exists (always true in
this embedding), the actor owns the turn, and the match has started. -/
def validateGameState (g : Game) (i : Nat) : ValidationResult :=
  if !(is_player_turn g i) then ValidationResult.invalid "Not your turn"
  else if !g.game_started then ValidationResult.invalid "Game has not started"
  else ValidationResult.valid

/-- ActionValidator::validateRoleSpecificRequirements. -/
def validateRoleSpecificRequirements (action : String) (p : Player) : ValidationResult :=
  if (action == "Gather" || action == "Tax") && p.sanctioned then
    ValidationResult.invalid "You are under sanctions and cannot gather or tax"
  else if action == "Arrest" && p.arrest_blocked then
    ValidationResult.invalid "Your arrest ability is blocked this turn"
  else if action == "Invest" && !(p.role.name == "Baron") then
    ValidationResult.invalid "Only Baron can invest"
  else if action == "Investigate" && !(p.role.name == "Spy") then
    ValidationResult.invalid "Only Spy can investigate"
  else if action == "Block Arrest" && !(p.role.name == "Spy") then
    ValidationResult.invalid "Only Spy can block arrest abilities"
  else ValidationResult.valid

/-- ActionValidator::validateTarget: a target reference must be supplied,
it must be active, and it must differ from the actor. -/
def validateTarget (g : Game) (action : String) (i : Nat) (target : Option Nat) :
    ValidationResult :=
  match target with
  | none => ValidationResult.invalid ("Target required for " ++ action)
  | some j =>
    match g.player_list.get? j with
    | none => ValidationResult.invalid ("Target required for " ++ action)
    | some t =>
      if !t.active then ValidationResult.invalid "Target player is not active"
      else if i == j then ValidationResult.invalid ("Cannot target yourself with " ++ action)
      else ValidationResult.valid

/-- Early-return composition of validator stages: keep the first failure. -/
def thenCheck (r next : ValidationResult) : ValidationResult :=
  if r.isValid then next else r

/-- ActionValidator::getValidationResult, the evaluate function: null-actor
check, then the mandatory-coup rule, then player state, game state, coins,
role gates, and finally (for targeted actions) the target checks, with the
first failure winning. -/
def getValidationResult (g : Game) (action : String) (actor target : Option Nat) :
    ValidationResult :=
  match actor with
  | none => ValidationResult.invalid "No actor specified"
  | some i =>
    match g.player_list.get? i with
    | none => ValidationResult.invalid "No actor specified"
    | some p =>
      if 10 ≤ p.coins ∧ action ≠ "Coup" ∧ action ≠ "End Turn" then
        ValidationResult.invalid "Must perform coup when having 10 or more coins"
      else
        thenCheck (validatePlayerState p)
          (thenCheck (validateGameState g i)
            (thenCheck (validateCoins action p)
              (thenCheck (validateRoleSpecificRequirements action p)
                (if requiresTarget action then validateTarget g action i target
                 else ValidationResult.valid))))

/-- Prefix test on character lists, modelling one alignment probed by
std::string::find. -/
def hasPref : List Char → List Char → Bool
  | [], _ => true
  | _ :: _, [] => false
  | c :: cs, d :: ds => c == d && hasPref cs ds

/-- Occurrence test of sub inside s, modelling
s.find(sub) != std::string::npos. -/
def strFind (sub : List Char) : List Char → Bool
  | [] => hasPref sub []
  | d :: ds => hasPref sub (d :: ds) || strFind sub ds

/-- String containment as the source's find-against-npos idiom. -/
def containsSub (s sub : String) : Bool :=
  strFind sub.data s.data

/-- The flat error taxonomy: the exception classes of
src/src/ActionValidator.cpp (second embedded header). -/
inductive ErrorKind where
  | NotEnoughCoins
  | NotYourTurn
  | IllegalTarget
  | GameError
  | IllegalMove
  deriving DecidableEq, Repr

/-- ActionValidator::validateActionExecution's mapping from a rejection
message to the exception it throws, by substring probes in source order. -/
def classifyError (msg : String) : ErrorKind :=
  if containsSub msg "coins" then ErrorKind.NotEnoughCoins
  else if containsSub msg "turn" then ErrorKind.NotYourTurn
  else if containsSub msg "target" || containsSub msg "Target" then ErrorKind.IllegalTarget
  else if containsSub msg "game" || containsSub msg "Game" then ErrorKind.GameError
  else ErrorKind.IllegalMove

/-- Sum of the players' personal balances. -/
def sumCoins : List Player → Int
  | [] => 0
  | p :: l => p.coins + sumCoins l

/-- Total coins in the system: treasury plus all personal balances. -/
def totalCoins (g : Game) : Int :=
  g.treasury + sumCoins g.player_list

/-- Dispatch of a committed action's effect stage (before the shared
consume/advance epilogue). -/
def commitEffect : ActionCommit → Game → Option Game
  | ActionCommit.gather i, g => gather_effect g i
  | ActionCommit.tax i, g => tax_effect g i
  | ActionCommit.bribe i, g => bribe_effect g i
  | ActionCommit.arrest i j, g => arrest_effect g i j
  | ActionCommit.sanction i j, g => sanction_effect g i j
  | ActionCommit.coup i j, g => coup_effect g i j
  | ActionCommit.invest i, g => invest_effect g i

/-- Selector for the one action with a nonstandard action-economy delta. -/
def isBribe : ActionCommit → Bool
  | ActionCommit.bribe _ => true
  | _ => false

/-- The match states reachable through the engine's public operations. -/
inductive Reachable : Game → Prop where
  | init : Reachable Game.init
  | add_player {g g' : Game} {name : String} {role : Role} :
      Reachable g → add_player g name role = some g' → Reachable g'
  | start_game {g g' : Game} :
      Reachable g → start_game g = some g' → Reachable g'
  | commit {g g' : Game} {a : ActionCommit} :
      Reachable g → commit a g = some g' → Reachable g'
  | next_turn {g : Game} : Reachable g → Reachable (next_turn g)
  | block_arrest {g g' : Game} {i j : Nat} :
      Reachable g → block_arrest_ability g i j = some g' → Reachable g'
  | investigate {g g' : Game} {i j : Nat} :
      Reachable g → investigate g i j = some g' → Reachable g'

/-- Modelled from the spec: consecutive seat offsets, first value first,
used to read the circular scan declaratively. -/
def offsetSeats : Nat → Nat → List Nat
  | _, 0 => []
  | s, c + 1 => s :: offsetSeats (s + 1) c

/-- First list entry satisfying a predicate. -/
def firstHit (pred : Nat → Bool) : List Nat → Option Nat
  | [] => none
  | k :: ks => if pred k then some k else firstHit pred ks

/-- Modelled from the spec, section 4.2 step 4: advance the pointer
circularly to the next seat whose occupant is active, stopping if it wraps
back to the start. The candidate offsets 1 .. length-1 are scanned in
order; with no active occupant among them the pointer comes back to the
starting seat. -/
def findNextActiveSeat (l : List Player) (start : Nat) : Nat :=
  match firstHit (fun k => isActiveAt l ((start + k) % l.length)) (offsetSeats 1 (l.length - 1)) with
  | some k => (start + k) % l.length
  | none => start

/-- Modelled from the spec, section 4.2 step 3: clear the departing
participant's sanctioned and arrest-blocked flags. -/
def clearDepartingFlags (g : Game) : Game :=
  modifyPlayer g g.current_turn
    (fun q => { q with sanctioned := false, arrest_blocked := false })

/-- Modelled from the spec, section 4.2 step 4: the pointer moves to the
next active seat in the circular scan. -/
def pointerAdvanced (g1 : Game) : Game :=
  { g1 with current_turn := findNextActiveSeat g1.player_list g1.current_turn }

/-- Modelled from the spec, section 4.2 step 5: if a new active participant
is found, invoke its turn-begin hook and reset the action-economy counter
to 1. -/
def beginTurnIfActive (g2 : Game) : Game :=
  if isActiveAt g2.player_list g2.current_turn then
    start_turn_actions (on_turn_start g2 g2.current_turn)
  else g2

/-- Modelled from the spec, section 4.2: the advance_turn algorithm as the
spec states it. Count active participants and stop when at most one; clear
the departing participant's flags; advance the pointer circularly to the
next active seat, stopping on a wrap back to the start; when a new active
participant is found, invoke its turn-begin hook and reset the
action-economy counter to 1. -/
def advance_turn_spec (g : Game) : Game :=
  if countActive g.player_list ≤ 1 then g
  else beginTurnIfActive (pointerAdvanced (clearDepartingFlags g))

/-- Two-seat started match: a Spy holding 3 coins about to act, a Judge. -/
def exSanctionJudge : Game :=
  { player_list := [{ mkPlayer "Sam" Role.Spy with coins := 3 }, mkPlayer "Jo" Role.Judge],
    current_turn := 0, game_started := true, treasury := 50,
    last_arrested_player := "", actions_remaining := 1 }

/-- Two-seat started match whose first seat holds 10 coins. -/
def exMandatory : Game :=
  { player_list := [{ mkPlayer "Rich" Role.Spy with coins := 10 }, mkPlayer "Jo" Role.Judge],
    current_turn := 0, game_started := true, treasury := 50,
    last_arrested_player := "", actions_remaining := 1 }

/-- Two-seat started match whose first seat is eliminated yet holds 10
coins. -/
def exInactiveRich : Game :=
  { player_list := [{ mkPlayer "Gone" Role.Spy with coins := 10, active := false },
      mkPlayer "Jo" Role.Judge],
    current_turn := 0, game_started := true, treasury := 50,
    last_arrested_player := "", actions_remaining := 1 }

/-- Two-seat started match where it is the second seat's turn. -/
def exNotYourTurn : Game :=
  { player_list := [{ mkPlayer "Pat" Role.Spy with coins := 2 }, mkPlayer "Jo" Role.Judge],
    current_turn := 1, game_started := true, treasury := 50,
    last_arrested_player := "", actions_remaining := 1 }

/-- Second seat of the repeat-arrest example. -/
def exVictim : Player :=
  { mkPlayer "Vic" Role.Judge with coins := 1 }

/-- Two-seat started match whose last arrest already hit the second seat. -/
def exRepeatArrest : Game :=
  { player_list := [{ mkPlayer "Al" Role.Spy with coins := 1 }, exVictim],
    current_turn := 0, game_started := true, treasury := 50,
    last_arrested_player := "Vic", actions_remaining := 1 }

/-- Scenario C of the spec: a Spy holding 4 coins, a Baron target. -/
def exScenarioC : Game :=
  { player_list := [{ mkPlayer "Sam" Role.Spy with coins := 4 }, mkPlayer "Bo" Role.Baron],
    current_turn := 0, game_started := true, treasury := 50,
    last_arrested_player := "", actions_remaining := 1 }

/-- State produced by the Scenario C sanction's effect stage: the Spy paid
3, the Baron holds the compensation coin and the sanction flag, and the
treasury is 2 up. -/
def exScenarioCAfter : Game :=
  { player_list := [⟨"Sam", 1, true, false, "", false, Role.Spy⟩,
      ⟨"Bo", 1, true, true, "", false, Role.Baron⟩],
    current_turn := 0, game_started := true, treasury := 52,
    last_arrested_player := "", actions_remaining := 1 }

/-- Plain two-seat started match used by the sequence witnesses. -/
def exTwo : Game :=
  { player_list := [mkPlayer "Alice" Role.Governor, mkPlayer "Bob" Role.Spy],
    current_turn := 0, game_started := true, treasury := 50,
    last_arrested_player := "", actions_remaining := 1 }

/-- Result of committing a Gather by the first seat of exTwo. -/
def exTwoAfterGather : Game :=
  { player_list := [⟨"Alice", 1, true, false, "", false, Role.Governor⟩,
      ⟨"Bob", 0, true, false, "", false, Role.Spy⟩],
    current_turn := 1, game_started := true, treasury := 49,
    last_arrested_player := "", actions_remaining := 1 }

/-- Two-seat started match whose first seat, a Spy, holds 4 coins. -/
def exBribe : Game :=
  { player_list := [{ mkPlayer "Sam" Role.Spy with coins := 4 }, mkPlayer "Jo" Role.Judge],
    current_turn := 0, game_started := true, treasury := 50,
    last_arrested_player := "", actions_remaining := 1 }

/-- State produced by exBribe's bribe effect stage: 4 coins paid back to
the treasury, 2 extra actions granted. -/
def exBribeAfter : Game :=
  { player_list := [⟨"Sam", 0, true, false, "", false, Role.Spy⟩,
      ⟨"Jo", 0, true, false, "", false, Role.Judge⟩],
    current_turn := 0, game_started := true, treasury := 54,
    last_arrested_player := "", actions_remaining := 3 }

/-- Two-seat started match whose first seat, a Spy, holds 7 coins. -/
def exCoup : Game :=
  { player_list := [{ mkPlayer "Sam" Role.Spy with coins := 7 }, mkPlayer "Jo" Role.Judge],
    current_turn := 0, game_started := true, treasury := 50,
    last_arrested_player := "", actions_remaining := 1 }

/-- State produced by exCoup's coup effect stage: 7 coins paid to the
treasury and the target eliminated. -/
def exCoupAfter : Game :=
  { player_list := [⟨"Sam", 0, true, false, "", false, Role.Spy⟩,
      ⟨"Jo", 0, false, false, "", false, Role.Judge⟩],
    current_turn := 0, game_started := true, treasury := 57,
    last_arrested_player := "", actions_remaining := 1 }

/-- Result of committing a Bribe by the first seat of exBribe: the effect
grants 2 extra actions and the epilogue consumes 1, leaving 2. -/
def exBribeCommit : Game :=
  { player_list := [⟨"Sam", 0, true, false, "", false, Role.Spy⟩,
      ⟨"Jo", 0, true, false, "", false, Role.Judge⟩],
    current_turn := 0, game_started := true, treasury := 54,
    last_arrested_player := "", actions_remaining := 2 }

/-- Result of the Gather effect stage by the first seat of exTwo, before
the consume/advance epilogue. -/
def exGatherEffect : Game :=
  { player_list := [⟨"Alice", 1, true, false, "", false, Role.Governor⟩,
      ⟨"Bob", 0, true, false, "", false, Role.Spy⟩],
    current_turn := 0, game_started := true, treasury := 49,
    last_arrested_player := "", actions_remaining := 1 }

/-! ## Helper lemmas -/

@[simp]
theorem isValid_valid : ValidationResult.valid.isValid = true := rfl

@[simp]
theorem isValid_invalid (m : String) : (ValidationResult.invalid m).isValid = false := rfl

@[simp]
theorem thenCheck_isValid (r s : ValidationResult) :
    (thenCheck r s).isValid = (r.isValid && s.isValid) := by
  unfold thenCheck
  cases hr : r.isValid <;> simp [hr]

/-- A target index equal to the actor index never validates: the seat is
either inactive or equals the actor. -/
theorem validateTarget_self (g : Game) (action : String) (i : Nat) :
    (validateTarget g action i (some i)).isValid = false := by
  cases h : g.player_list.get? i with
  | none => simp only [validateTarget, h]; rfl
  | some t =>
    cases ha : t.active with
    | false => simp only [validateTarget, h, ha]; rfl
    | true =>
      simp only [validateTarget, h, ha]
      simp [ValidationResult.invalid]

/-! ## Claim C3: the mandatory-coup rule in evaluate -/

/-- C3, confirmed. For every actor holding 10 or more coins, evaluate
rejects every action other than Coup and End Turn with the fixed
mandatory-coup diagnostic, whatever the target and the rest of the state:
the check is the first thing getValidationResult does after the null-actor
check. -/
theorem mandatory_coup_rejects_all (g : Game) (action : String) (i : Nat) (p : Player)
    (target : Option Nat) (hp : g.player_list.get? i = some p) (hc : 10 ≤ p.coins)
    (h1 : action ≠ "Coup") (h2 : action ≠ "End Turn") :
    getValidationResult g action (some i) target =
      ValidationResult.invalid "Must perform coup when having 10 or more coins" := by
  simp only [getValidationResult, hp]
  rw [if_pos ⟨hc, h1, h2⟩]

/-- Witness for C3 at a concrete state: a started two-seat match whose
first seat holds exactly 10 coins, asking for Gather. -/
theorem mandatory_coup_rejects_all_witness :
    getValidationResult exMandatory "Gather" (some 0) none =
      ValidationResult.invalid "Must perform coup when having 10 or more coins" :=
  mandatory_coup_rejects_all exMandatory "Gather" 0
    ⟨"Rich", 10, true, false, "", false, Role.Spy⟩ none rfl (by decide) (by decide) (by decide)

/-! ## Claim C9: order of the first checks in evaluate -/

/-- C9, counterexample. An inactive actor holding 10 coins asking for
Gather is rejected by the mandatory-coup rule, not with the inactive-actor
diagnostic: the claim's stated order (actor-active before mandatory coup)
does not match the code. -/
theorem inactive_rich_actor_counterexample :
    getValidationResult exInactiveRich "Gather" (some 0) none =
      ValidationResult.invalid "Must perform coup when having 10 or more coins"
    ∧ (exInactiveRich.player_list.get? 0).map Player.active = some false
    ∧ getValidationResult exInactiveRich "Gather" (some 0) none ≠
      ValidationResult.invalid "Player is not active" :=
  ⟨rfl, rfl, by decide⟩

/-- C9, amended. Only the actor-provided (non-null) check precedes the
mandatory-coup check; the actor-active check comes after it, so an
inactive actor holding 10 or more coins requesting a non-Coup,
non-End-Turn action is rejected by the mandatory-coup rule. -/
theorem evaluate_check_order :
    (∀ (g : Game) (action : String) (target : Option Nat),
        getValidationResult g action none target = ValidationResult.invalid "No actor specified")
    ∧ (∀ (g : Game) (action : String) (i : Nat) (p : Player) (target : Option Nat),
        g.player_list.get? i = some p → p.active = false → 10 ≤ p.coins →
        action ≠ "Coup" → action ≠ "End Turn" →
        getValidationResult g action (some i) target =
          ValidationResult.invalid "Must perform coup when having 10 or more coins") := by
  constructor
  · intro g action target
    rfl
  · intro g action i p target hp _hact hc h1 h2
    simp only [getValidationResult, hp]
    rw [if_pos ⟨hc, h1, h2⟩]

/-- Witness for the amended C9 at the counterexample state. -/
theorem evaluate_check_order_witness :
    getValidationResult exInactiveRich "Gather" (some 0) none =
      ValidationResult.invalid "Must perform coup when having 10 or more coins" :=
  evaluate_check_order.2 exInactiveRich "Gather" 0
    ⟨"Gone", 10, false, false, "", false, Role.Spy⟩ none rfl rfl (by decide)
    (by decide) (by decide)

/-! ## Claim C1: the Judge-sanction coin override in evaluate -/

/-- C1, counterexample. With a target supplied whose role is Judge and an
actor holding exactly 3 coins, evaluate accepts the Sanction: its coin
check never reads the target, contradicting the claimed 4-coin
requirement. -/
theorem sanction_judge_coin_check_counterexample :
    (exSanctionJudge.player_list.get? 0).map Player.coins = some 3
    ∧ (exSanctionJudge.player_list.get? 1).map Player.role = some Role.Judge
    ∧ getValidationResult exSanctionJudge "Sanction" (some 0) (some 1) =
        ValidationResult.valid :=
  ⟨rfl, rfl, rfl⟩

/-- C1, amended. Evaluate's coin check for Sanction uses the base cost of
3 whether or not a target is supplied and whatever the target's role; the
4-coin cost against a Judge is enforced only when the action is committed,
where Player::sanction rejects an actor holding exactly 3 coins. -/
theorem sanction_coin_check_base_cost_only :
    (∀ p : Player, (validateCoins "Sanction" p).isValid = true ↔ 3 ≤ p.coins)
    ∧ (∀ (g : Game) (i j : Nat) (p t : Player),
        g.player_list.get? i = some p → g.player_list.get? j = some t →
        t.role = Role.Judge → p.coins = 3 → sanction g i j = none) := by
  constructor
  · intro p
    by_cases h : p.coins < 3
    · have hv : validateCoins "Sanction" p = ValidationResult.invalid
          "Need at least 3 coins for sanction" := by
        simp [validateCoins, getActionCost, h]
      rw [hv]
      exact iff_of_false (by simp) (by omega)
    · have hv : validateCoins "Sanction" p = ValidationResult.valid := by
        simp [validateCoins, getActionCost, h]
      rw [hv]
      exact iff_of_true rfl (by omega)
  · intro g i j p t hp ht hrole hcoins
    have he : sanction_effect g i j = none := by
      unfold sanction_effect
      rw [hp, ht]
      simp [hrole, Role.name, hcoins]
    simp [sanction, he]

/-- Witness for the amended C1: the 3-coin Spy against the Judge. -/
theorem sanction_coin_check_base_cost_only_witness :
    ((validateCoins "Sanction" ⟨"Sam", 3, true, false, "", false, Role.Spy⟩).isValid = true ↔
      3 ≤ (3 : Int))
    ∧ sanction exSanctionJudge 0 1 = none :=
  ⟨sanction_coin_check_base_cost_only.1 ⟨"Sam", 3, true, false, "", false, Role.Spy⟩,
   sanction_coin_check_base_cost_only.2 exSanctionJudge 0 1
     ⟨"Sam", 3, true, false, "", false, Role.Spy⟩
     ⟨"Jo", 0, true, false, "", false, Role.Judge⟩ rfl rfl rfl rfl⟩

/-! ## Claim C6: self-targeting in evaluate -/

/-- C6, counterexample. evaluate(Arrest, p, p) in a state where it is not
p's turn rejects with the turn diagnostic, which classifies as
NotYourTurn, not IllegalTarget: the claimed fixed rejection reason does
not match the code. -/
theorem self_target_reason_counterexample :
    getValidationResult exNotYourTurn "Arrest" (some 0) (some 0) =
      ValidationResult.invalid "Not your turn"
    ∧ classifyError "Not your turn" ≠ ErrorKind.IllegalTarget :=
  ⟨rfl, by decide⟩

/-- C6, amended. For every target-requiring action, evaluate(action, p, p)
always rejects; the rejection reason is the self-target IllegalTarget
diagnostic when the checks before target validation pass, but an earlier
failure (for example, not the actor's turn) yields that failure's reason
instead. -/
theorem self_target_always_rejected :
    (∀ (g : Game) (action : String) (i : Nat), requiresTarget action = true →
        (getValidationResult g action (some i) (some i)).isValid = false)
    ∧ (∀ (g : Game) (action : String) (i : Nat) (p : Player),
        requiresTarget action = true → g.player_list.get? i = some p → p.active = true →
        validateTarget g action i (some i) =
          ValidationResult.invalid ("Cannot target yourself with " ++ action)
        ∧ classifyError ("Cannot target yourself with " ++ action) =
            ErrorKind.IllegalTarget) := by
  constructor
  · intro g action i hreq
    cases hp : g.player_list.get? i with
    | none => simp only [getValidationResult, hp]; rfl
    | some p =>
      simp only [getValidationResult, hp]
      split
      · rfl
      · simp [hreq, validateTarget_self]
  · intro g action i p hreq hp hact
    constructor
    · simp only [validateTarget, hp, hact]
      simp
    · have hcases : action = "Arrest" ∨ action = "Sanction" ∨ action = "Coup" ∨
          action = "Investigate" ∨ action = "Block Arrest" := by
        simpa [requiresTarget, or_assoc] using hreq
      rcases hcases with h | h | h | h | h <;> subst h <;> decide

/-- Witness for the amended C6 at the concrete not-your-turn state. -/
theorem self_target_always_rejected_witness :
    (getValidationResult exNotYourTurn "Arrest" (some 0) (some 0)).isValid = false ∧
      classifyError ("Cannot target yourself with " ++ "Arrest") = ErrorKind.IllegalTarget :=
  ⟨self_target_always_rejected.1 exNotYourTurn "Arrest" 0 rfl,
   (self_target_always_rejected.2 exNotYourTurn "Arrest" 0
     ⟨"Pat", 2, true, false, "", false, Role.Spy⟩ rfl rfl rfl).2⟩

/-! ## Claim C7: the global repeat-arrest restriction -/

/-- C7, confirmed. When the match's last-arrested record equals the
target's name, the arrest attempt fails for every actor, and the failure
raises before any mutation: in this embedding a none outcome is exactly an
exception thrown with the state untouched, so coins, the last-arrested
record and the turn state are unchanged. -/
theorem repeat_arrest_rejected (g : Game) (i j : Nat) (t : Player)
    (ht : g.player_list.get? j = some t) (hl : g.last_arrested_player = t.name) :
    arrest g i j = none := by
  have he : arrest_effect g i j = none := by
    unfold arrest_effect
    cases hp : g.player_list.get? i with
    | none => rfl
    | some p =>
      rw [ht]
      simp [hl]
  simp [arrest, he]

/-- Witness for C7: arresting the recorded victim again fails. -/
theorem repeat_arrest_rejected_witness : arrest exRepeatArrest 0 1 = none :=
  repeat_arrest_rejected exRepeatArrest 0 1 exVictim rfl rfl

/-! ## List-update helper lemmas -/

theorem getq_set_self {α : Type} {l : List α} {i : Nat} {p : α} (q : α)
    (h : l.get? i = some p) : (l.set i q).get? i = some q := by
  induction l generalizing i with
  | nil => simp at h
  | cons a tl ih =>
    cases i with
    | zero => simp
    | succ n =>
      simp only [List.set_cons_succ, List.get?_cons_succ] at h ⊢
      exact ih h

theorem getq_set_other {α : Type} (l : List α) {i : Nat} (j : Nat) (q : α)
    (hij : i ≠ j) : (l.set i q).get? j = l.get? j := by
  induction l generalizing i j with
  | nil => simp
  | cons a tl ih =>
    cases i with
    | zero =>
      cases j with
      | zero => exact absurd rfl hij
      | succ m => simp
    | succ n =>
      cases j with
      | zero => simp
      | succ m =>
        simp only [List.set_cons_succ, List.get?_cons_succ]
        exact ih m (fun hh => hij (by omega))

/-! ## Claim C8: Baron compensation on sanction -/

/-- C8, confirmed. Whenever a sanction whose target is a Baron goes
through, in any state with a nonnegative treasury (an invariant of all
reachable states), the effect stage moves exactly 3 coins from the actor
into the treasury and 1 coin from the treasury to the Baron: target coins
+1, actor coins -3, treasury net +2, and the target's sanction flag set.
The committed sanction is this effect followed by the consume/advance
epilogue, which moves no coins of the sanction itself. -/
theorem baron_sanction_compensation (g : Game) (i j : Nat) (p t : Player) (g1 : Game)
    (hp : g.player_list.get? i = some p) (ht : g.player_list.get? j = some t)
    (hrole : t.role = Role.Baron) (htre : 0 ≤ g.treasury)
    (h : sanction_effect g i j = some g1) :
    (g1.player_list.get? j).map Player.coins = some (t.coins + 1)
    ∧ (g1.player_list.get? j).map Player.sanctioned = some true
    ∧ (g1.player_list.get? i).map Player.coins = some (p.coins - 3)
    ∧ g1.treasury = g.treasury + 2 := by
  have h31 : (1:Int) ≤ g.treasury + 3 := by omega
  have h31n : ¬(g.treasury + 3 < 1) := by omega
  have hbj : (("Baron" == "Judge") = true) = False := by simp
  have hbb : (("Baron" == "Baron") = true) = True := by simp
  simp only [sanction_effect, hp, ht, hrole, Role.name, Option.bind_eq_bind,
    Option.some_bind, hbj, hbb, if_true, if_false] at h
  split at h
  · exact Option.noConfusion h
  split at h
  · exact Option.noConfusion h
  split at h
  · exact Option.noConfusion h
  split at h
  · exact Option.noConfusion h
  rename_i hval hact hij hcost
  have h30 : ¬(3:Int) < 0 := by norm_num
  have h10 : ¬(1:Int) < 0 := by norm_num
  have hji : ¬j = i := fun hh => hij hh.symm
  have hgj2 : ((g.player_list.set i { p with coins := p.coins - 3 }).set j
      { t with coins := t.coins + 1 }).get? j = some { t with coins := t.coins + 1 } :=
    getq_set_self _ (by rw [getq_set_other _ _ _ hij]; exact ht)
  simp only [remove_coins, hp, hcost, if_false, add_to_treasury, h30, Game.setPlayer,
    remove_from_treasury, h10, h31, h31n, if_true, Option.some_bind, add_coins,
    modifyPlayer, getq_set_other _ _ _ hij, ht, hgj2] at h
  obtain rfl : _ = g1 := Option.some.inj h
  refine ⟨?_, ?_, ?_, ?_⟩
  · simp only [getq_set_self _ hgj2]
    rfl
  · simp only [getq_set_self _ hgj2]
    rfl
  · simp only [getq_set_other _ _ _ hji, getq_set_self _ hp]
    rfl
  · simp only []
    omega

/-- Witness for C8: Scenario C of the spec, the 4-coin Spy sanctioning the
penniless Baron. -/
theorem baron_sanction_compensation_witness :
    (exScenarioCAfter.player_list.get? 1).map Player.coins = some ((0:Int) + 1)
    ∧ (exScenarioCAfter.player_list.get? 1).map Player.sanctioned = some true
    ∧ (exScenarioCAfter.player_list.get? 0).map Player.coins = some ((4:Int) - 3)
    ∧ exScenarioCAfter.treasury = (50:Int) + 2 :=
  baron_sanction_compensation exScenarioC 0 1
    ⟨"Sam", 4, true, false, "", false, Role.Spy⟩
    ⟨"Bo", 0, true, false, "", false, Role.Baron⟩ exScenarioCAfter rfl rfl rfl
    (by decide) (by decide)


/-! ## Conservation helper lemmas -/

theorem sumCoins_set {l : List Player} {i : Nat} {p : Player} (q : Player)
    (h : l.get? i = some p) : sumCoins (l.set i q) = sumCoins l - p.coins + q.coins := by
  induction l generalizing i with
  | nil => simp at h
  | cons a tl ih =>
    cases i with
    | zero =>
      simp only [List.get?_cons_zero, Option.some.injEq] at h
      subst h
      simp only [List.set_cons_zero, sumCoins]
      ring
    | succ n =>
      simp only [List.get?_cons_succ] at h
      simp only [List.set_cons_succ, sumCoins]
      rw [ih h]
      ring

theorem add_to_treasury_spec {g : Game} {a : Int} {g1 : Game}
    (h : add_to_treasury g a = some g1) :
    g1 = { g with treasury := g.treasury + a } ∧ 0 ≤ a := by
  unfold add_to_treasury at h
  split at h
  · exact Option.noConfusion h
  · rename_i hn
    exact ⟨(Option.some.inj h).symm, by omega⟩

theorem remove_from_treasury_spec {g : Game} {a : Int} {g1 : Game}
    (h : remove_from_treasury g a = some g1) :
    g1 = { g with treasury := g.treasury - a } ∧ 0 ≤ a ∧ a ≤ g.treasury := by
  unfold remove_from_treasury at h
  split at h
  · exact Option.noConfusion h
  split at h
  · exact Option.noConfusion h
  rename_i h1 h2
  exact ⟨(Option.some.inj h).symm, by omega, by omega⟩

theorem remove_coins_spec {g : Game} {i : Nat} {a : Int} {g1 : Game}
    (h : remove_coins g i a = some g1) :
    ∃ q, g.player_list.get? i = some q ∧ a ≤ q.coins
      ∧ g1 = g.setPlayer i { q with coins := q.coins - a } := by
  unfold remove_coins at h
  cases hq : g.player_list.get? i with
  | none =>
    simp only [hq] at h
    exact Option.noConfusion h
  | some q =>
    simp only [hq] at h
    split at h
    · exact Option.noConfusion h
    · rename_i hc
      exact ⟨q, rfl, by omega, (Option.some.inj h).symm⟩

theorem add_coins_eq {g : Game} {i : Nat} {q : Player} (a : Int)
    (h : g.player_list.get? i = some q) :
    add_coins g i a = g.setPlayer i { q with coins := q.coins + a } := by
  unfold add_coins modifyPlayer
  simp only [h]

theorem totalCoins_setPlayer {g : Game} {i : Nat} {p : Player} (q : Player)
    (h : g.player_list.get? i = some p) :
    totalCoins (g.setPlayer i q) = totalCoins g - p.coins + q.coins := by
  unfold totalCoins Game.setPlayer
  simp only [sumCoins_set q h]
  ring

theorem gather_effect_spec {g : Game} {i : Nat} {g1 : Game}
    (h : gather_effect g i = some g1) :
    totalCoins g1 = totalCoins g ∧ (0 ≤ g.treasury → 0 ≤ g1.treasury)
      ∧ g1.actions_remaining = g.actions_remaining := by
  unfold gather_effect at h
  cases hp : g.player_list.get? i with
  | none =>
    simp only [hp, Option.bind_eq_bind, Option.none_bind] at h
    exact Option.noConfusion h
  | some p =>
    simp only [hp, Option.bind_eq_bind, Option.some_bind] at h
    split at h
    · exact Option.noConfusion h
    split at h
    · exact Option.noConfusion h
    cases hr : remove_from_treasury g 1 with
    | none => rw [hr] at h; exact Option.noConfusion h
    | some gA =>
      rw [hr] at h
      obtain ⟨hA, -, h1le⟩ := remove_from_treasury_spec hr
      subst hA
      simp only [Option.some_bind] at h
      obtain rfl := Option.some.inj h
      rw [add_coins_eq 1 (show ({ g with treasury := g.treasury - 1 } : Game).player_list.get? i = some p from hp)]
      refine ⟨?_, ?_, rfl⟩
      · rw [totalCoins_setPlayer _ (show ({ g with treasury := g.treasury - 1 } : Game).player_list.get? i = some p from hp)]
        unfold totalCoins
        simp
        ring
      · intro h0
        simp only [Game.setPlayer]
        omega
theorem tax_effect_spec {g : Game} {i : Nat} {g1 : Game}
    (h : tax_effect g i = some g1) :
    totalCoins g1 = totalCoins g ∧ (0 ≤ g.treasury → 0 ≤ g1.treasury)
      ∧ g1.actions_remaining = g.actions_remaining := by
  unfold tax_effect at h
  cases hp : g.player_list.get? i with
  | none =>
    simp only [hp, Option.bind_eq_bind, Option.none_bind] at h
    exact Option.noConfusion h
  | some p =>
    simp only [hp, Option.bind_eq_bind, Option.some_bind] at h
    split at h
    · exact Option.noConfusion h
    split at h
    · exact Option.noConfusion h
    cases hr : remove_from_treasury g (if (p.role.name == "Governor") = true then 3 else 2) with
    | none => rw [hr] at h; exact Option.noConfusion h
    | some gA =>
      rw [hr] at h
      obtain ⟨hA, hnn, hle⟩ := remove_from_treasury_spec hr
      subst hA
      simp only [Option.some_bind] at h
      obtain rfl := Option.some.inj h
      rw [add_coins_eq _ (show ({ g with treasury := g.treasury - _ } : Game).player_list.get? i = some p from hp)]
      refine ⟨?_, ?_, rfl⟩
      · rw [totalCoins_setPlayer _ (show ({ g with treasury := g.treasury - _ } : Game).player_list.get? i = some p from hp)]
        unfold totalCoins
        simp only [Game.setPlayer]
        ring
      · intro h0
        simp only [Game.setPlayer]
        omega

theorem bribe_effect_spec {g : Game} {i : Nat} {g1 : Game}
    (h : bribe_effect g i = some g1) :
    totalCoins g1 = totalCoins g ∧ g1.treasury = g.treasury + 4
      ∧ g1.actions_remaining = g.actions_remaining + 2 := by
  unfold bribe_effect at h
  cases hp : g.player_list.get? i with
  | none =>
    simp only [hp, Option.bind_eq_bind, Option.none_bind] at h
    exact Option.noConfusion h
  | some p =>
    simp only [hp, Option.bind_eq_bind, Option.some_bind] at h
    split at h
    · exact Option.noConfusion h
    split at h
    · exact Option.noConfusion h
    cases hr : remove_coins g i 4 with
    | none => rw [hr] at h; exact Option.noConfusion h
    | some gA =>
      rw [hr] at h
      obtain ⟨q, hq, hle, hA⟩ := remove_coins_spec hr
      rw [hp] at hq
      obtain rfl := Option.some.inj hq
      subst hA
      simp only [Option.some_bind] at h
      cases ha : add_to_treasury (g.setPlayer i { p with coins := p.coins - 4 }) 4 with
      | none => rw [ha] at h; exact Option.noConfusion h
      | some gB =>
        rw [ha] at h
        obtain ⟨hB, -⟩ := add_to_treasury_spec ha
        subst hB
        simp only [Option.some_bind] at h
        obtain rfl := Option.some.inj h
        refine ⟨?_, rfl, rfl⟩
        unfold add_extra_actions totalCoins
        simp only [Game.setPlayer]
        rw [sumCoins_set _ hp]
        ring
theorem modifyPlayer_eq {g : Game} {i : Nat} {q : Player} (f : Player → Player)
    (h : g.player_list.get? i = some q) : modifyPlayer g i f = g.setPlayer i (f q) := by
  unfold modifyPlayer
  simp only [h]

theorem setPlayer_facts (g : Game) (i : Nat) (q : Player) :
    (g.setPlayer i q).player_list = g.player_list.set i q
    ∧ (g.setPlayer i q).treasury = g.treasury
    ∧ (g.setPlayer i q).actions_remaining = g.actions_remaining :=
  ⟨rfl, rfl, rfl⟩

theorem totalCoins_parts (g : Game) : totalCoins g = g.treasury + sumCoins g.player_list := rfl

theorem coup_effect_spec {g : Game} {i j : Nat} {g1 : Game}
    (h : coup_effect g i j = some g1) :
    totalCoins g1 = totalCoins g ∧ g1.treasury = g.treasury + 7
      ∧ g1.actions_remaining = g.actions_remaining
      ∧ (∀ p, g.player_list.get? i = some p →
          (g1.player_list.get? i).map Player.coins = some (p.coins - 7)) := by
  unfold coup_effect at h
  cases hp : g.player_list.get? i with
  | none =>
    simp only [hp, Option.bind_eq_bind, Option.none_bind] at h
    exact Option.noConfusion h
  | some p =>
    cases ht : g.player_list.get? j with
    | none =>
      simp only [hp, ht, Option.bind_eq_bind, Option.none_bind, Option.some_bind] at h
      exact Option.noConfusion h
    | some t =>
      simp only [hp, ht, Option.bind_eq_bind, Option.some_bind] at h
      split at h
      · exact Option.noConfusion h
      split at h
      · exact Option.noConfusion h
      split at h
      · exact Option.noConfusion h
      split at h
      · exact Option.noConfusion h
      rename_i hval hact hcoins hij
      have hji : ¬j = i := fun hh => hij hh.symm
      cases hr : remove_coins g i 7 with
      | none => rw [hr] at h; exact Option.noConfusion h
      | some gA =>
        rw [hr] at h
        simp only [Option.some_bind] at h
        obtain ⟨q, hq, hle, hA⟩ := remove_coins_spec hr
        rw [hp] at hq
        obtain rfl := Option.some.inj hq
        have hAl : gA.player_list = g.player_list.set i { p with coins := p.coins - 7 } := by
          rw [hA]; rfl
        have hAt : gA.treasury = g.treasury := by rw [hA]; rfl
        have hAa : gA.actions_remaining = g.actions_remaining := by rw [hA]; rfl
        have hAj : gA.player_list.get? j = some t := by
          rw [hAl, getq_set_other _ _ _ hij]; exact ht
        have hAi : gA.player_list.get? i = some { p with coins := p.coins - 7 } := by
          rw [hAl]; exact getq_set_self _ hp
        cases ha : add_to_treasury gA 7 with
        | none => rw [ha] at h; exact Option.noConfusion h
        | some gB =>
          rw [ha] at h
          simp only [Option.some_bind] at h
          obtain ⟨hB, -⟩ := add_to_treasury_spec ha
          have hBl : gB.player_list = gA.player_list := by rw [hB]
          have hBt : gB.treasury = gA.treasury + 7 := by rw [hB]
          have hBa : gB.actions_remaining = gA.actions_remaining := by rw [hB]
          have hBj : gB.player_list.get? j = some t := by rw [hBl]; exact hAj
          rw [modifyPlayer_eq _ hBj] at h
          obtain rfl := Option.some.inj h
          refine ⟨?_, ?_, ?_, ?_⟩
          · rw [totalCoins_parts, totalCoins_parts g, (setPlayer_facts gB j _).1,
              (setPlayer_facts gB j _).2.1, sumCoins_set _ hBj, hBl, hAl,
              sumCoins_set _ hp, hBt, hAt]
            ring
          · rw [(setPlayer_facts gB j _).2.1, hBt, hAt]
          · rw [(setPlayer_facts gB j _).2.2, hBa, hAa]
          · intro p' hp'
            obtain rfl := Option.some.inj hp'
            rw [(setPlayer_facts gB j _).1, getq_set_other _ _ _ hji, hBl, hAi]
            rfl
theorem invest_effect_spec {g : Game} {i : Nat} {g1 : Game}
    (h : invest_effect g i = some g1) :
    totalCoins g1 = totalCoins g ∧ (0 ≤ g.treasury → 0 ≤ g1.treasury)
      ∧ g1.actions_remaining = g.actions_remaining := by
  unfold invest_effect at h
  cases hp : g.player_list.get? i with
  | none =>
    simp only [hp, Option.bind_eq_bind, Option.none_bind] at h
    exact Option.noConfusion h
  | some p =>
    simp only [hp, Option.bind_eq_bind, Option.some_bind] at h
    split at h
    · exact Option.noConfusion h
    split at h
    · exact Option.noConfusion h
    split at h
    · exact Option.noConfusion h
    split at h
    · exact Option.noConfusion h
    rename_i hrole hval hcoins htre
    cases hr : remove_coins g i 3 with
    | none => rw [hr] at h; exact Option.noConfusion h
    | some gA =>
      rw [hr] at h
      simp only [Option.some_bind] at h
      obtain ⟨q, hq, hle, hA⟩ := remove_coins_spec hr
      rw [hp] at hq
      obtain rfl := Option.some.inj hq
      have hAl : gA.player_list = g.player_list.set i { p with coins := p.coins - 3 } := by
        rw [hA]; rfl
      have hAt : gA.treasury = g.treasury := by rw [hA]; rfl
      have hAa : gA.actions_remaining = g.actions_remaining := by rw [hA]; rfl
      have hAi : gA.player_list.get? i = some { p with coins := p.coins - 3 } := by
        rw [hAl]; exact getq_set_self _ hp
      cases ha : add_to_treasury gA 3 with
      | none => rw [ha] at h; exact Option.noConfusion h
      | some gB =>
        rw [ha] at h
        simp only [Option.some_bind] at h
        obtain ⟨hB, -⟩ := add_to_treasury_spec ha
        have hBl : gB.player_list = gA.player_list := by rw [hB]
        have hBt : gB.treasury = gA.treasury + 3 := by rw [hB]
        have hBa : gB.actions_remaining = gA.actions_remaining := by rw [hB]
        cases hc : remove_from_treasury gB 6 with
        | none => rw [hc] at h; exact Option.noConfusion h
        | some gC =>
          rw [hc] at h
          simp only [Option.some_bind] at h
          obtain ⟨hC, -, h6le⟩ := remove_from_treasury_spec hc
          have hCl : gC.player_list = gB.player_list := by rw [hC]
          have hCt : gC.treasury = gB.treasury - 6 := by rw [hC]
          have hCa : gC.actions_remaining = gB.actions_remaining := by rw [hC]
          have hCi : gC.player_list.get? i = some { p with coins := p.coins - 3 } := by
            rw [hCl, hBl]; exact hAi
          rw [add_coins_eq 6 hCi] at h
          obtain rfl := Option.some.inj h
          refine ⟨?_, ?_, ?_⟩
          · rw [totalCoins_parts, totalCoins_parts g, (setPlayer_facts gC i _).1,
              (setPlayer_facts gC i _).2.1, sumCoins_set _ hCi, hCl, hBl, hAl,
              sumCoins_set _ hp, hCt, hBt, hAt]
            ring
          · intro h0
            rw [(setPlayer_facts gC i _).2.1, hCt, hBt, hAt]
            rw [hBt, hAt] at h6le
            omega
          · rw [(setPlayer_facts gC i _).2.2, hCa, hBa, hAa]
theorem lastArrested_facts (gx : Game) (nm : String) :
    totalCoins { gx with last_arrested_player := nm } = totalCoins gx
    ∧ ({ gx with last_arrested_player := nm } : Game).treasury = gx.treasury
    ∧ ({ gx with last_arrested_player := nm } : Game).actions_remaining =
        gx.actions_remaining :=
  ⟨rfl, rfl, rfl⟩

theorem arrest_effect_spec {g : Game} {i j : Nat} {g1 : Game}
    (h : arrest_effect g i j = some g1) :
    totalCoins g1 = totalCoins g ∧ (0 ≤ g.treasury → 0 ≤ g1.treasury)
      ∧ g1.actions_remaining = g.actions_remaining := by
  unfold arrest_effect at h
  cases hp : g.player_list.get? i with
  | none =>
    simp only [hp, Option.bind_eq_bind, Option.none_bind] at h
    exact Option.noConfusion h
  | some p =>
    cases ht : g.player_list.get? j with
    | none =>
      simp only [hp, ht, Option.bind_eq_bind, Option.none_bind, Option.some_bind] at h
      exact Option.noConfusion h
    | some t =>
      simp only [hp, ht, Option.bind_eq_bind, Option.some_bind] at h
      split at h
      · exact Option.noConfusion h
      split at h
      · exact Option.noConfusion h
      split at h
      · exact Option.noConfusion h
      split at h
      · exact Option.noConfusion h
      split at h
      · exact Option.noConfusion h
      rename_i hval hact hij hblk hrep
      have hji : ¬j = i := fun hh => hij hh.symm
      split at h
      · -- General: no transfer
        obtain rfl := Option.some.inj h
        exact ⟨rfl, fun h0 => h0, rfl⟩
      split at h
      · -- Merchant
        split at h
        · -- has coins: pays min(coins,2) to treasury
          rw [Option.bind_eq_some] at h
          obtain ⟨gA, hrA, hrest⟩ := h
          obtain ⟨q, hq, hle, hA⟩ := remove_coins_spec hrA
          rw [ht] at hq
          obtain rfl := Option.some.inj hq
          have hAt : gA.treasury = g.treasury := by rw [hA]; rfl
          have hAa : gA.actions_remaining = g.actions_remaining := by rw [hA]; rfl
          have hAl : gA.player_list = g.player_list.set j
              { t with coins := t.coins - min t.coins 2 } := by rw [hA]; rfl
          rw [Option.bind_eq_some] at hrest
          obtain ⟨gB, haB, hfin⟩ := hrest
          obtain rfl := Option.some.inj hfin
          obtain ⟨hB, hmin⟩ := add_to_treasury_spec haB
          have hBt : gB.treasury = gA.treasury + min t.coins 2 := by rw [hB]
          have hBl : gB.player_list = gA.player_list := by rw [hB]
          have hBa : gB.actions_remaining = gA.actions_remaining := by rw [hB]
          rw [(lastArrested_facts gB t.name).1, (lastArrested_facts gB t.name).2.1,
            (lastArrested_facts gB t.name).2.2]
          refine ⟨?_, ?_, ?_⟩
          · rw [totalCoins_parts, totalCoins_parts g, hBt, hBl, hAl, hAt,
              sumCoins_set _ ht]
            ring
          · intro h0
            rw [hBt, hAt]
            omega
          · rw [hBa, hAa]
        · -- no coins
          obtain rfl := Option.some.inj h
          exact ⟨rfl, fun h0 => h0, rfl⟩
      · -- normal target
        split at h
        · -- steal one coin
          rw [Option.bind_eq_some] at h
          obtain ⟨gA, hrA, hrest⟩ := h
          obtain ⟨q, hq, hle, hA⟩ := remove_coins_spec hrA
          rw [ht] at hq
          obtain rfl := Option.some.inj hq
          have hAt : gA.treasury = g.treasury := by rw [hA]; rfl
          have hAa : gA.actions_remaining = g.actions_remaining := by rw [hA]; rfl
          have hAl : gA.player_list = g.player_list.set j
              { t with coins := t.coins - 1 } := by rw [hA]; rfl
          have hAi : gA.player_list.get? i = some p := by
            rw [hAl, getq_set_other _ _ _ hji]
            exact hp
          rw [add_coins_eq 1 hAi] at hrest
          obtain rfl := Option.some.inj hrest
          rw [(lastArrested_facts _ t.name).1, (lastArrested_facts _ t.name).2.1,
            (lastArrested_facts _ t.name).2.2]
          refine ⟨?_, ?_, ?_⟩
          · rw [totalCoins_parts, totalCoins_parts g, (setPlayer_facts gA i _).1,
              (setPlayer_facts gA i _).2.1, sumCoins_set _ hAi, hAl, hAt,
              sumCoins_set _ ht]
            ring
          · intro h0
            rw [(setPlayer_facts gA i _).2.1, hAt]
            exact h0
          · rw [(setPlayer_facts gA i _).2.2, hAa]
        · -- target broke
          obtain rfl := Option.some.inj h
          exact ⟨rfl, fun h0 => h0, rfl⟩
theorem sanction_effect_spec {g : Game} {i j : Nat} {g1 : Game}
    (h : sanction_effect g i j = some g1) :
    totalCoins g1 = totalCoins g ∧ (0 ≤ g.treasury → 0 ≤ g1.treasury)
      ∧ g1.actions_remaining = g.actions_remaining := by
  unfold sanction_effect at h
  cases hp : g.player_list.get? i with
  | none =>
    simp only [hp, Option.bind_eq_bind, Option.none_bind] at h
    exact Option.noConfusion h
  | some p =>
    cases ht : g.player_list.get? j with
    | none =>
      simp only [hp, ht, Option.bind_eq_bind, Option.none_bind, Option.some_bind] at h
      exact Option.noConfusion h
    | some t =>
      simp only [hp, ht, Option.bind_eq_bind, Option.some_bind] at h
      split at h
      · exact Option.noConfusion h
      split at h
      · exact Option.noConfusion h
      split at h
      · exact Option.noConfusion h
      rename_i hval hact hij
      have hji : ¬j = i := fun hh => hij hh.symm
      set c : Int := (if (t.role.name == "Judge") = true then (4:Int) else 3) with hc
      have hc0 : (0:Int) ≤ c := by rw [hc]; split <;> norm_num
      split at h
      · exact Option.noConfusion h
      rename_i hcost
      rw [Option.bind_eq_some] at h
      obtain ⟨gA, hrA, hrest⟩ := h
      obtain ⟨q, hq, hle, hA⟩ := remove_coins_spec hrA
      rw [hp] at hq
      obtain rfl := Option.some.inj hq
      have hAt : gA.treasury = g.treasury := by rw [hA]; rfl
      have hAa : gA.actions_remaining = g.actions_remaining := by rw [hA]; rfl
      have hAl : gA.player_list = g.player_list.set i { p with coins := p.coins - c } := by
        rw [hA]; rfl
      have hAj : gA.player_list.get? j = some t := by
        rw [hAl, getq_set_other _ _ _ hij]
        exact ht
      rw [Option.bind_eq_some] at hrest
      obtain ⟨gB, haB, hrest2⟩ := hrest
      obtain ⟨hB, -⟩ := add_to_treasury_spec haB
      have hBt : gB.treasury = gA.treasury + c := by rw [hB]
      have hBl : gB.player_list = gA.player_list := by rw [hB]
      have hBa : gB.actions_remaining = gA.actions_remaining := by rw [hB]
      have hBj : gB.player_list.get? j = some t := by rw [hBl]; exact hAj
      split at hrest2
      · -- Baron target
        split at hrest2
        · -- compensation available
          rename_i htre1
          rw [Option.bind_eq_some] at hrest2
          obtain ⟨gC, hrC, hrest3⟩ := hrest2
          obtain ⟨hC, -, -⟩ := remove_from_treasury_spec hrC
          have hCt : gC.treasury = gB.treasury - 1 := by rw [hC]
          have hCl : gC.player_list = gB.player_list := by rw [hC]
          have hCa : gC.actions_remaining = gB.actions_remaining := by rw [hC]
          have hCj : gC.player_list.get? j = some t := by rw [hCl]; exact hBj
          rw [add_coins_eq 1 hCj] at hrest3
          have hDj : (gC.setPlayer j { t with coins := t.coins + 1 }).player_list.get? j
              = some { t with coins := t.coins + 1 } := by
            rw [(setPlayer_facts gC j _).1]
            exact getq_set_self _ hCj
          rw [modifyPlayer_eq _ hDj] at hrest3
          obtain rfl := Option.some.inj hrest3
          refine ⟨?_, ?_, ?_⟩
          · rw [totalCoins_parts, totalCoins_parts g,
              (setPlayer_facts (gC.setPlayer j _) j _).1,
              (setPlayer_facts (gC.setPlayer j _) j _).2.1,
              sumCoins_set _ hDj, (setPlayer_facts gC j _).1,
              (setPlayer_facts gC j _).2.1, sumCoins_set _ hCj, hCt, hCl, hBt, hBl,
              hAt, hAl, sumCoins_set _ hp]
            ring
          · intro h0
            rw [(setPlayer_facts (gC.setPlayer j _) j _).2.1,
              (setPlayer_facts gC j _).2.1, hCt]
            omega
          · rw [(setPlayer_facts (gC.setPlayer j _) j _).2.2,
              (setPlayer_facts gC j _).2.2, hCa, hBa, hAa]
        · -- treasury empty: no compensation
          rw [modifyPlayer_eq _ hBj] at hrest2
          obtain rfl := Option.some.inj hrest2
          refine ⟨?_, ?_, ?_⟩
          · rw [totalCoins_parts, totalCoins_parts g, (setPlayer_facts gB j _).1,
              (setPlayer_facts gB j _).2.1, sumCoins_set _ hBj, hBt, hBl, hAt, hAl,
              sumCoins_set _ hp]
            ring
          · intro h0
            rw [(setPlayer_facts gB j _).2.1, hBt, hAt]
            omega
          · rw [(setPlayer_facts gB j _).2.2, hBa, hAa]
      · -- non-Baron target
        rw [modifyPlayer_eq _ hBj] at hrest2
        obtain rfl := Option.some.inj hrest2
        refine ⟨?_, ?_, ?_⟩
        · rw [totalCoins_parts, totalCoins_parts g, (setPlayer_facts gB j _).1,
            (setPlayer_facts gB j _).2.1, sumCoins_set _ hBj, hBt, hBl, hAt, hAl,
            sumCoins_set _ hp]
          ring
        · intro h0
          rw [(setPlayer_facts gB j _).2.1, hBt, hAt]
          omega
        · rw [(setPlayer_facts gB j _).2.2, hBa, hAa]
theorem totalCoins_modifyPlayer {g : Game} (i : Nat) (f : Player → Player)
    (hf : ∀ q, (f q).coins = q.coins) :
    totalCoins (modifyPlayer g i f) = totalCoins g := by
  unfold modifyPlayer
  cases hq : g.player_list.get? i with
  | none => rfl
  | some q =>
    rw [totalCoins_parts, (setPlayer_facts g i _).1, (setPlayer_facts g i _).2.1,
      sumCoins_set _ hq, hf, totalCoins_parts g]
    ring

theorem modifyPlayer_fields (g : Game) (i : Nat) (f : Player → Player) :
    (modifyPlayer g i f).treasury = g.treasury
    ∧ (modifyPlayer g i f).actions_remaining = g.actions_remaining
    ∧ (modifyPlayer g i f).current_turn = g.current_turn := by
  unfold modifyPlayer
  cases g.player_list.get? i <;> exact ⟨rfl, rfl, rfl⟩

theorem on_turn_start_spec (g : Game) (j : Nat) :
    totalCoins (on_turn_start g j) = totalCoins g
    ∧ (0 ≤ g.treasury → 0 ≤ (on_turn_start g j).treasury)
    ∧ (on_turn_start g j).actions_remaining = g.actions_remaining := by
  cases hq : g.player_list.get? j with
  | none =>
    simp only [on_turn_start, hq]
    simp
  | some q =>
    simp only [on_turn_start, hq]
    split
    · -- Merchant branch
      split
      · -- rich enough for the bonus
        split
        · -- treasury can pay
          rename_i hrole h3 h1
          have hq' : ({ g with treasury := g.treasury - 1 } : Game).player_list.get? j
              = some q := hq
          rw [add_coins_eq 1 hq']
          refine ⟨?_, ?_, ?_⟩
          · rw [totalCoins_parts,
              (setPlayer_facts { g with treasury := g.treasury - 1 } j _).1,
              (setPlayer_facts { g with treasury := g.treasury - 1 } j _).2.1,
              sumCoins_set _ hq', totalCoins_parts g]
            show g.treasury - 1 + (sumCoins g.player_list - q.coins + (q.coins + 1))
              = g.treasury + sumCoins g.player_list
            ring
          · intro h0
            rw [(setPlayer_facts { g with treasury := g.treasury - 1 } j _).2.1]
            show (0:Int) ≤ g.treasury - 1
            omega
          · rw [(setPlayer_facts { g with treasury := g.treasury - 1 } j _).2.2]
        · simp
      · simp
    · simp

theorem turn_entry_spec (g2 : Game) :
    totalCoins (turn_entry g2) = totalCoins g2
    ∧ (0 ≤ g2.treasury → 0 ≤ (turn_entry g2).treasury)
    ∧ ((turn_entry g2).actions_remaining = g2.actions_remaining
        ∨ (turn_entry g2).actions_remaining = 1) := by
  cases hq : g2.player_list.get? g2.current_turn with
  | none =>
    simp only [turn_entry, hq]
    simp
  | some q =>
    simp only [turn_entry, hq]
    cases hact : q.active with
    | false => simp
    | true =>
      rw [if_pos rfl]
      have hos := on_turn_start_spec g2 g2.current_turn
      refine ⟨?_, ?_, Or.inr rfl⟩
      · show totalCoins (on_turn_start g2 g2.current_turn) = totalCoins g2
        exact hos.1
      · intro h0
        show (0:Int) ≤ (on_turn_start g2 g2.current_turn).treasury
        exact hos.2.1 h0

theorem next_turn_spec (g : Game) :
    totalCoins (next_turn g) = totalCoins g
    ∧ (0 ≤ g.treasury → 0 ≤ (next_turn g).treasury)
    ∧ ((next_turn g).actions_remaining = g.actions_remaining
        ∨ (next_turn g).actions_remaining = 1) := by
  unfold next_turn
  split
  · exact ⟨rfl, fun h0 => h0, Or.inl rfl⟩
  · unfold advance_pointer
    set g1 := modifyPlayer g g.current_turn
      (fun q => { q with sanctioned := false, arrest_blocked := false }) with hg1
    set g2 : Game := { g1 with
      current_turn := nextTurnLoop g1.player_list g1.current_turn g1.current_turn
        g1.player_list.length } with hg2
    have hm := modifyPlayer_fields g g.current_turn
      (fun q => { q with sanctioned := false, arrest_blocked := false })
    have hmt : totalCoins g1 = totalCoins g :=
      totalCoins_modifyPlayer _ _ (fun q => rfl)
    have h2t : totalCoins g2 = totalCoins g1 := rfl
    have h2tr : g2.treasury = g1.treasury := rfl
    have h2a : g2.actions_remaining = g1.actions_remaining := rfl
    have hte := turn_entry_spec g2
    refine ⟨?_, ?_, ?_⟩
    · rw [hte.1, h2t, hmt]
    · intro h0
      apply hte.2.1
      rw [h2tr, hm.1]
      exact h0
    · rcases hte.2.2 with he | he
      · exact Or.inl (by rw [he, h2a, hm.2.1])
      · exact Or.inr he

theorem consume_action_facts (g : Game) :
    totalCoins (consume_action g) = totalCoins g
    ∧ (consume_action g).treasury = g.treasury
    ∧ (0 ≤ g.actions_remaining → 0 ≤ (consume_action g).actions_remaining)
    ∧ (g.actions_remaining = 0 → (consume_action g).actions_remaining = 0)
    ∧ (0 < g.actions_remaining →
        (consume_action g).actions_remaining = g.actions_remaining - 1) := by
  unfold consume_action
  split
  · rename_i hpos
    refine ⟨rfl, rfl, fun _ => ?_, fun h0 => absurd (h0 ▸ hpos) (by omega), fun _ => rfl⟩
    show (0:Int) ≤ g.actions_remaining - 1
    omega
  · rename_i hnpos
    exact ⟨rfl, rfl, fun h0 => h0, fun h0 => h0, fun hlt => absurd hlt hnpos⟩

theorem finishAction_spec (g : Game) :
    totalCoins (finishAction g) = totalCoins g
    ∧ (0 ≤ g.treasury → 0 ≤ (finishAction g).treasury)
    ∧ (0 ≤ g.actions_remaining → 0 ≤ (finishAction g).actions_remaining) := by
  obtain ⟨c1, c2, c3, -, -⟩ := consume_action_facts g
  unfold finishAction
  split
  · obtain ⟨n1, n2, n3⟩ := next_turn_spec (consume_action g)
    refine ⟨n1.trans c1, fun h0 => n2 (by rw [c2]; exact h0), fun h0 => ?_⟩
    rcases n3 with he | he
    · rw [he]; exact c3 h0
    · rw [he]; norm_num
  · exact ⟨c1, fun h0 => by rw [c2]; exact h0, c3⟩

theorem commit_eq_effect (a : ActionCommit) (g : Game) :
    commit a g = (commitEffect a g).map finishAction := by
  cases a <;> rfl

theorem commitEffect_spec {a : ActionCommit} {g g1 : Game}
    (h : commitEffect a g = some g1) :
    totalCoins g1 = totalCoins g ∧ (0 ≤ g.treasury → 0 ≤ g1.treasury)
    ∧ (isBribe a = false → g1.actions_remaining = g.actions_remaining)
    ∧ (isBribe a = true → g1.actions_remaining = g.actions_remaining + 2) := by
  cases a with
  | gather i =>
    obtain ⟨h1, h2, h3⟩ := gather_effect_spec h
    exact ⟨h1, h2, fun _ => h3, fun hb => Bool.noConfusion hb⟩
  | tax i =>
    obtain ⟨h1, h2, h3⟩ := tax_effect_spec h
    exact ⟨h1, h2, fun _ => h3, fun hb => Bool.noConfusion hb⟩
  | bribe i =>
    obtain ⟨h1, h2, h3⟩ := bribe_effect_spec h
    exact ⟨h1, fun h0 => by omega, fun hb => Bool.noConfusion hb, fun _ => h3⟩
  | arrest i j =>
    obtain ⟨h1, h2, h3⟩ := arrest_effect_spec h
    exact ⟨h1, h2, fun _ => h3, fun hb => Bool.noConfusion hb⟩
  | sanction i j =>
    obtain ⟨h1, h2, h3⟩ := sanction_effect_spec h
    exact ⟨h1, h2, fun _ => h3, fun hb => Bool.noConfusion hb⟩
  | coup i j =>
    obtain ⟨h1, h2, h3, -⟩ := coup_effect_spec h
    exact ⟨h1, fun h0 => by omega, fun _ => h3, fun hb => Bool.noConfusion hb⟩
  | invest i =>
    obtain ⟨h1, h2, h3⟩ := invest_effect_spec h
    exact ⟨h1, h2, fun _ => h3, fun hb => Bool.noConfusion hb⟩

theorem commit_spec {a : ActionCommit} {g g' : Game} (h : commit a g = some g') :
    totalCoins g' = totalCoins g ∧ (0 ≤ g.treasury → 0 ≤ g'.treasury)
    ∧ (0 ≤ g.actions_remaining → 0 ≤ g'.actions_remaining) := by
  rw [commit_eq_effect] at h
  cases he : commitEffect a g with
  | none => rw [he] at h; exact Option.noConfusion h
  | some g1 =>
    rw [he] at h
    obtain rfl := Option.some.inj h
    obtain ⟨h1, h2, h3, h4⟩ := commitEffect_spec he
    obtain ⟨f1, f2, f3⟩ := finishAction_spec g1
    refine ⟨f1.trans h1, fun h0 => f2 (h2 h0), fun h0 => f3 ?_⟩
    cases hb : isBribe a
    · rw [h3 hb]; exact h0
    · rw [h4 hb]; omega

theorem commitSeq_spec (acts : List ActionCommit) (g g' : Game) (ht : 0 ≤ g.treasury)
    (h : commitSeq acts g = some g') :
    0 ≤ g'.treasury ∧ totalCoins g' = totalCoins g := by
  induction acts generalizing g with
  | nil =>
    obtain rfl := Option.some.inj h
    exact ⟨ht, rfl⟩
  | cons a rest ih =>
    unfold commitSeq at h
    cases hc : commit a g with
    | none => rw [hc] at h; exact Option.noConfusion h
    | some gm =>
      rw [hc] at h
      obtain ⟨c1, c2, -⟩ := commit_spec hc
      obtain ⟨i1, i2⟩ := ih gm (c2 ht) h
      exact ⟨i1, i2.trans c1⟩

theorem block_arrest_spec {g : Game} {i j : Nat} {g' : Game}
    (h : block_arrest_ability g i j = some g') :
    g'.actions_remaining = g.actions_remaining ∧ g'.treasury = g.treasury := by
  unfold block_arrest_ability at h
  cases hp : g.player_list.get? i with
  | none =>
    simp only [hp, Option.bind_eq_bind, Option.none_bind] at h
    exact Option.noConfusion h
  | some p =>
    cases ht : g.player_list.get? j with
    | none =>
      simp only [hp, ht, Option.bind_eq_bind, Option.none_bind, Option.some_bind] at h
      exact Option.noConfusion h
    | some t =>
      simp only [hp, ht, Option.bind_eq_bind, Option.some_bind] at h
      split at h
      · exact Option.noConfusion h
      split at h
      · exact Option.noConfusion h
      split at h
      · exact Option.noConfusion h
      obtain rfl := Option.some.inj h
      exact ⟨(modifyPlayer_fields g j _).2.1, (modifyPlayer_fields g j _).1⟩

theorem investigate_spec {g : Game} {i j : Nat} {g' : Game}
    (h : investigate g i j = some g') : g' = g := by
  unfold investigate at h
  cases hp : g.player_list.get? i with
  | none =>
    simp only [hp, Option.bind_eq_bind, Option.none_bind] at h
    exact Option.noConfusion h
  | some p =>
    cases ht : g.player_list.get? j with
    | none =>
      simp only [hp, ht, Option.bind_eq_bind, Option.none_bind, Option.some_bind] at h
      exact Option.noConfusion h
    | some t =>
      simp only [hp, ht, Option.bind_eq_bind, Option.some_bind] at h
      split at h
      · exact Option.noConfusion h
      split at h
      · exact Option.noConfusion h
      split at h
      · exact Option.noConfusion h
      exact (Option.some.inj h).symm

theorem add_player_spec {g : Game} {name : String} {role : Role} {g' : Game}
    (h : add_player g name role = some g') :
    g'.actions_remaining = g.actions_remaining := by
  unfold add_player at h
  split at h
  · exact Option.noConfusion h
  · obtain rfl := Option.some.inj h
    rfl

theorem start_game_spec {g : Game} {g' : Game} (h : start_game g = some g') :
    g'.actions_remaining = g.actions_remaining := by
  unfold start_game at h
  split at h
  · exact Option.noConfusion h
  · obtain rfl := Option.some.inj h
    rfl

/-! ## Claim C2: the treasury invariant -/

/-- C2, confirmed. Along every sequence of committed actions from a state
with a nonnegative treasury, the treasury stays nonnegative and the total
number of coins in the system (treasury plus the sum of all personal
balances) never changes. In particular, the Bribe effect returns its 4
coins to the treasury for a net zero change of the total, and the Coup
effect moves exactly 7 coins from the actor to the treasury. -/
theorem treasury_conservation :
    (∀ (acts : List ActionCommit) (g g' : Game), 0 ≤ g.treasury →
        commitSeq acts g = some g' →
        0 ≤ g'.treasury ∧ totalCoins g' = totalCoins g)
    ∧ (∀ (g : Game) (i : Nat) (g1 : Game), bribe_effect g i = some g1 →
        totalCoins g1 = totalCoins g ∧ g1.treasury = g.treasury + 4)
    ∧ (∀ (g : Game) (i j : Nat) (g1 : Game), coup_effect g i j = some g1 →
        totalCoins g1 = totalCoins g ∧ g1.treasury = g.treasury + 7
        ∧ ∀ p, g.player_list.get? i = some p →
            (g1.player_list.get? i).map Player.coins = some (p.coins - 7)) := by
  refine ⟨commitSeq_spec, ?_, ?_⟩
  · intro g i g1 h
    obtain ⟨h1, h2, -⟩ := bribe_effect_spec h
    exact ⟨h1, h2⟩
  · intro g i j g1 h
    obtain ⟨h1, h2, -, h4⟩ := coup_effect_spec h
    exact ⟨h1, h2, h4⟩

/-- Witness for C2: a committed Gather on the plain two-seat match, the
bribe effect of the 4-coin Spy, and the coup effect of the 7-coin Spy. -/
theorem treasury_conservation_witness :
    (0 ≤ exTwoAfterGather.treasury ∧ totalCoins exTwoAfterGather = totalCoins exTwo)
    ∧ (totalCoins exBribeAfter = totalCoins exBribe
        ∧ exBribeAfter.treasury = exBribe.treasury + 4)
    ∧ (totalCoins exCoupAfter = totalCoins exCoup
        ∧ exCoupAfter.treasury = exCoup.treasury + 7) :=
  ⟨treasury_conservation.1 [ActionCommit.gather 0] exTwo exTwoAfterGather
      (by decide) (by decide),
   treasury_conservation.2.1 exBribe 0 exBribeAfter (by decide),
   (treasury_conservation.2.2 exCoup 0 1 exCoupAfter (by decide)).1,
   (treasury_conservation.2.2 exCoup 0 1 exCoupAfter (by decide)).2.1⟩

/-! ## Claim C10: the action counter never goes negative -/

/-- C10, confirmed. consume_action decrements only when the counter is
positive and leaves a zero counter at zero, and along every state reachable
through the engine's operations the counter stays nonnegative. -/
theorem actions_remaining_nonneg :
    (∀ g : Game, g.actions_remaining = 0 →
        (consume_action g).actions_remaining = 0)
    ∧ (∀ g : Game, 0 < g.actions_remaining →
        (consume_action g).actions_remaining = g.actions_remaining - 1)
    ∧ (∀ g : Game, Reachable g → 0 ≤ g.actions_remaining) := by
  refine ⟨fun g => (consume_action_facts g).2.2.2.1,
    fun g => (consume_action_facts g).2.2.2.2, ?_⟩
  intro g hr
  induction hr with
  | init => norm_num [Game.init]
  | add_player _ hstep ih => rw [add_player_spec hstep]; exact ih
  | start_game _ hstep ih => rw [start_game_spec hstep]; exact ih
  | commit _ hstep ih => exact (commit_spec hstep).2.2 ih
  | next_turn _ ih =>
    rcases (next_turn_spec _).2.2 with he | he
    · rw [he]; assumption
    · rw [he]; norm_num
  | block_arrest _ hstep ih => rw [(block_arrest_spec hstep).1]; exact ih
  | investigate _ hstep ih => rw [investigate_spec hstep]; exact ih

/-- Witness for C10: the initial state is reachable with a nonnegative
counter, and consuming at zero stays at zero. -/
theorem actions_remaining_nonneg_witness :
    (consume_action { Game.init with actions_remaining := 0 }).actions_remaining = 0
    ∧ 0 ≤ Game.init.actions_remaining :=
  ⟨actions_remaining_nonneg.1 { Game.init with actions_remaining := 0 } rfl,
   actions_remaining_nonneg.2.2 Game.init Reachable.init⟩


/-! ## Turn-advance machinery: the pointer loop and the spec reading -/

theorem mem_offsetSeats {m : Nat} : ∀ (s c : Nat), m ∈ offsetSeats s c ↔ s ≤ m ∧ m < s + c := by
  intro s c
  induction c generalizing s with
  | zero =>
    simp only [offsetSeats, List.not_mem_nil, false_iff]
    omega
  | succ c ih =>
    simp only [offsetSeats, List.mem_cons, ih]
    omega

theorem firstHit_some {pred : Nat → Bool} : ∀ {ks : List Nat} {k : Nat},
    firstHit pred ks = some k → pred k = true := by
  intro ks
  induction ks with
  | nil => intro k h; exact Option.noConfusion h
  | cons a tl ih =>
    intro k h
    unfold firstHit at h
    split at h
    · rename_i ha
      obtain rfl := Option.some.inj h
      exact ha
    · exact ih h

theorem firstHit_isSome {pred : Nat → Bool} : ∀ {ks : List Nat},
    (∃ k, k ∈ ks ∧ pred k = true) → ∃ k0, firstHit pred ks = some k0 := by
  intro ks
  induction ks with
  | nil => rintro ⟨k, hk, -⟩; exact absurd hk (List.not_mem_nil k)
  | cons a tl ih =>
    rintro ⟨k, hk, hp⟩
    unfold firstHit
    split
    · exact ⟨a, rfl⟩
    · rename_i ha
      rcases List.mem_cons.mp hk with rfl | hmem
      · exact absurd hp (by simp [ha])
      · exact ih ⟨k, hmem, hp⟩

theorem add_mod_ne_self {start m n : Nat} (hs : start < n) (h1 : 0 < m) (h2 : m < n) :
    (start + m) % n ≠ start := by
  rcases Nat.lt_or_ge (start + m) n with hlt | hge
  · rw [Nat.mod_eq_of_lt hlt]
    omega
  · rw [Nat.mod_eq_sub_mod hge, Nat.mod_eq_of_lt (by omega)]
    omega

theorem step_mod (start t n : Nat) : ((start + t) % n + 1) % n = (start + (t + 1)) % n := by
  rw [Nat.mod_add_mod, Nat.add_assoc]

theorem nextTurnLoop_eq_seek (l : List Player) (start : Nat) (hs : start < l.length) :
    ∀ (fuel t : Nat), t + fuel = l.length → t < l.length →
      nextTurnLoop l start ((start + t) % l.length) fuel =
        (match firstHit (fun k => isActiveAt l ((start + k) % l.length))
            (offsetSeats (t + 1) (l.length - 1 - t)) with
         | some k => (start + k) % l.length
         | none => start) := by
  intro fuel
  induction fuel with
  | zero =>
    intro t hsum hlt
    omega
  | succ fuel ih =>
    intro t hsum hlt
    simp only [nextTurnLoop, step_mod]
    rcases Nat.eq_or_lt_of_le (Nat.succ_le_of_lt hlt) with hteq | htlt
    · -- t + 1 = l.length: wraps to start
      have hnxt : (start + (t + 1)) % l.length = start := by
        have hl : l.length = t + 1 := by omega
        rw [hl, Nat.add_mod_right, Nat.mod_eq_of_lt (by omega)]
      rw [if_pos hnxt]
      have hempty : l.length - 1 - t = 0 := by omega
      rw [hempty, hnxt]
      rfl
    · -- t + 1 < l.length
      have hnxt : (start + (t + 1)) % l.length ≠ start :=
        add_mod_ne_self hs (by omega) htlt
      rw [if_neg hnxt]
      have hlen : l.length - 1 - t = (l.length - 1 - (t + 1)) + 1 := by omega
      rw [hlen]
      simp only [offsetSeats]
      cases hact : isActiveAt l ((start + (t + 1)) % l.length) with
      | true =>
        rw [if_pos rfl]
        simp only [firstHit]
        rw [if_pos hact]
      | false =>
        rw [if_neg (by simp)]
        simp only [firstHit]
        rw [if_neg (by rw [hact]; simp)]
        exact ih (t + 1) (by omega) htlt

theorem modifyPlayer_length (g : Game) (i : Nat) (f : Player → Player) :
    (modifyPlayer g i f).player_list.length = g.player_list.length := by
  unfold modifyPlayer
  cases g.player_list.get? i with
  | none => rfl
  | some q => exact List.length_set g.player_list i _

theorem loop_eq_findNextActiveSeat (l : List Player) (start : Nat) (hs : start < l.length) :
    nextTurnLoop l start start l.length = findNextActiveSeat l start := by
  have h0 : (start + 0) % l.length = start := by
    rw [Nat.add_zero, Nat.mod_eq_of_lt hs]
  have hmain := nextTurnLoop_eq_seek l start hs l.length 0 (by omega) (by omega)
  rw [h0] at hmain
  rw [hmain]
  rfl

theorem turn_entry_eq_beginTurnIfActive (g2 : Game) :
    turn_entry g2 = beginTurnIfActive g2 := by
  cases hq : g2.player_list.get? g2.current_turn with
  | none =>
    simp only [turn_entry, beginTurnIfActive, isActiveAt, hq]
    rfl
  | some q =>
    simp only [turn_entry, beginTurnIfActive, isActiveAt, hq]

/-- C4, confirmed. For every state whose turn pointer is in range (an
invariant of the match), Game::next_turn computes exactly the spec's
advance_turn algorithm: no-op when at most one participant is active, else
clear the departing participant's flags, advance the pointer circularly to
the next active seat stopping on a wrap back to the start, and, when the
new seat's occupant is active, run its turn-begin hook and reset the
action-economy counter to 1. -/
theorem next_turn_refines_spec (g : Game) (h : g.current_turn < g.player_list.length) :
    next_turn g = advance_turn_spec g := by
  unfold next_turn advance_turn_spec
  split
  · rfl
  · show advance_pointer (clearDepartingFlags g) =
      beginTurnIfActive (pointerAdvanced (clearDepartingFlags g))
    have hct : (clearDepartingFlags g).current_turn = g.current_turn :=
      (modifyPlayer_fields g g.current_turn _).2.2
    have hlen : (clearDepartingFlags g).player_list.length = g.player_list.length :=
      modifyPlayer_length g g.current_turn _
    unfold advance_pointer pointerAdvanced
    rw [loop_eq_findNextActiveSeat _ _ (by rw [hct, hlen]; exact h)]
    exact turn_entry_eq_beginTurnIfActive _

theorem one_active : ∀ (l : List Player), 1 ≤ countActive l →
    ∃ j, j < l.length ∧ isActiveAt l j = true := by
  intro l
  induction l with
  | nil => intro h; simp [countActive] at h
  | cons p tl ih =>
    intro h
    cases hact : p.active with
    | true => exact ⟨0, by simp, by simp [isActiveAt, hact]⟩
    | false =>
      have htl : 1 ≤ countActive tl := by
        simp [countActive, hact] at h
        omega
      obtain ⟨j, hj, hja⟩ := ih htl
      exact ⟨j + 1, by simp; omega, by simpa [isActiveAt] using hja⟩

theorem exists_active_ne : ∀ (l : List Player) (s : Nat), 2 ≤ countActive l →
    ∃ j, j < l.length ∧ j ≠ s ∧ isActiveAt l j = true := by
  intro l
  induction l with
  | nil => intro s h; simp [countActive] at h
  | cons p tl ih =>
    intro s h
    cases hact : p.active with
    | true =>
      cases hs : s with
      | zero =>
        have htl : 1 ≤ countActive tl := by
          simp [countActive, hact] at h
          omega
        obtain ⟨j, hj, hja⟩ := one_active tl htl
        exact ⟨j + 1, by simp; omega, by omega, by simpa [isActiveAt] using hja⟩
      | succ m =>
        exact ⟨0, by simp, by omega, by simp [isActiveAt, hact]⟩
    | false =>
      have htl : 2 ≤ countActive tl := by
        simp [countActive, hact] at h
        omega
      cases hs : s with
      | zero =>
        obtain ⟨j, hj, hja⟩ := one_active tl (by omega)
        exact ⟨j + 1, by simp; omega, by omega, by simpa [isActiveAt] using hja⟩
      | succ m =>
        obtain ⟨j, hj, hjm, hja⟩ := ih m htl
        exact ⟨j + 1, by simp; omega, by omega, by simpa [isActiveAt] using hja⟩

theorem findNextActiveSeat_active (l : List Player) (start : Nat)
    (hs : start < l.length)
    (hex : ∃ j, j < l.length ∧ j ≠ start ∧ isActiveAt l j = true) :
    isActiveAt l (findNextActiveSeat l start) = true := by
  obtain ⟨j, hj, hjs, hja⟩ := hex
  have hk : ∃ k, k ∈ offsetSeats 1 (l.length - 1)
      ∧ (fun k => isActiveAt l ((start + k) % l.length)) k = true := by
    rcases Nat.lt_or_ge start j with hlt | hge
    · refine ⟨j - start, ?_, ?_⟩
      · rw [mem_offsetSeats]
        omega
      · show isActiveAt l ((start + (j - start)) % l.length) = true
        have hsum : start + (j - start) = j := by omega
        rw [hsum, Nat.mod_eq_of_lt hj]
        exact hja
    · have hgt : j < start := by omega
      refine ⟨l.length + j - start, ?_, ?_⟩
      · rw [mem_offsetSeats]
        omega
      · show isActiveAt l ((start + (l.length + j - start)) % l.length) = true
        have hsum : start + (l.length + j - start) = l.length + j := by omega
        rw [hsum, Nat.add_mod_left, Nat.mod_eq_of_lt hj]
        exact hja
  obtain ⟨k0, hk0⟩ := firstHit_isSome hk
  unfold findNextActiveSeat
  rw [hk0]
  show isActiveAt l ((start + k0) % l.length) = true
  have hpk := firstHit_some hk0
  exact hpk

theorem turn_entry_counter (g2 : Game)
    (hact : isActiveAt g2.player_list g2.current_turn = true) :
    (turn_entry g2).actions_remaining = 1 := by
  rw [turn_entry_eq_beginTurnIfActive]
  unfold beginTurnIfActive
  rw [if_pos hact]
  rfl

theorem countActive_set (l : List Player) : ∀ (i : Nat) (p q : Player),
    l.get? i = some p → q.active = p.active →
    countActive (l.set i q) = countActive l := by
  induction l with
  | nil => intro i p q h; exact absurd h (by simp)
  | cons a tl ih =>
    intro i p q h hq
    cases i with
    | zero =>
      simp only [List.get?_cons_zero, Option.some.injEq] at h
      subst h
      simp only [List.set_cons_zero, countActive, hq]
    | succ n =>
      simp only [List.get?_cons_succ] at h
      simp only [List.set_cons_succ, countActive]
      rw [ih n p q h hq]

theorem countActive_modify (g : Game) (i : Nat) (f : Player → Player)
    (hf : ∀ q, (f q).active = q.active) :
    countActive (modifyPlayer g i f).player_list = countActive g.player_list := by
  unfold modifyPlayer
  cases hq : g.player_list.get? i with
  | none => rfl
  | some q => exact countActive_set g.player_list i q (f q) hq (hf q)

theorem next_turn_counter_one (g : Game) (h2 : 2 ≤ countActive g.player_list)
    (hct : g.current_turn < g.player_list.length) :
    (next_turn g).actions_remaining = 1 := by
  unfold next_turn
  rw [if_neg (by omega)]
  set g1 := modifyPlayer g g.current_turn
    (fun q => { q with sanctioned := false, arrest_blocked := false }) with hg1
  have hlen : g1.player_list.length = g.player_list.length :=
    modifyPlayer_length g g.current_turn _
  have hctg1 : g1.current_turn = g.current_turn :=
    (modifyPlayer_fields g g.current_turn _).2.2
  have hcnt : countActive g1.player_list = countActive g.player_list :=
    countActive_modify g g.current_turn _ (fun q => rfl)
  have hs1 : g1.current_turn < g1.player_list.length := by
    rw [hctg1, hlen]; exact hct
  unfold advance_pointer
  rw [loop_eq_findNextActiveSeat _ _ hs1]
  apply turn_entry_counter
  show isActiveAt g1.player_list (findNextActiveSeat g1.player_list g1.current_turn) = true
  exact findNextActiveSeat_active g1.player_list g1.current_turn hs1
    (exists_active_ne g1.player_list g1.current_turn (by omega))

/-- Witness for C4: the refinement at the plain two-seat match. -/
theorem next_turn_refines_spec_witness : next_turn exTwo = advance_turn_spec exTwo :=
  next_turn_refines_spec exTwo (by decide)

/-! ## Claim C5: the action-economy counter -/

/-- C5, confirmed. The counter starts at 1 (at construction, and next_turn
resets it to 1 whenever at least two participants are active and the
pointer is in range); a committed Bribe nets exactly one extra available
action; every other committed action's effect leaves the counter alone so
that the shared epilogue consumes exactly 1; and the epilogue advances the
turn exactly when the consumed counter reaches 0 — never before, never
skipped. -/
theorem action_economy_counter :
    Game.init.actions_remaining = 1
    ∧ (∀ g : Game, 2 ≤ countActive g.player_list →
        g.current_turn < g.player_list.length → (next_turn g).actions_remaining = 1)
    ∧ (∀ (g : Game) (i : Nat) (g' : Game), 0 ≤ g.actions_remaining →
        bribe g i = some g' → g'.actions_remaining = g.actions_remaining + 1)
    ∧ (∀ g : Game, 1 ≤ g.actions_remaining →
        (consume_action g).actions_remaining = g.actions_remaining - 1
        ∧ (g.actions_remaining = 1 → finishAction g = next_turn (consume_action g))
        ∧ (2 ≤ g.actions_remaining → finishAction g = consume_action g))
    ∧ (∀ (a : ActionCommit) (g g1 : Game), isBribe a = false →
        commitEffect a g = some g1 →
        g1.actions_remaining = g.actions_remaining
        ∧ commit a g = some (finishAction g1)) := by
  refine ⟨rfl, next_turn_counter_one, ?_, ?_, ?_⟩
  · intro g i g' h0 hb
    rw [show bribe g i = (bribe_effect g i).map finishAction from rfl] at hb
    cases he : bribe_effect g i with
    | none => rw [he] at hb; exact Option.noConfusion hb
    | some g1 =>
      rw [he] at hb
      obtain rfl := Option.some.inj hb
      obtain ⟨-, -, ha⟩ := bribe_effect_spec he
      have hc := (consume_action_facts g1).2.2.2.2 (by omega)
      unfold finishAction
      rw [if_neg (by rw [hc, ha]; omega)]
      rw [hc, ha]
      omega
  · intro g h1
    have hc := (consume_action_facts g).2.2.2.2 (by omega)
    refine ⟨hc, ?_, ?_⟩
    · intro he1
      unfold finishAction
      rw [if_pos (by rw [hc, he1]; norm_num)]
    · intro he2
      unfold finishAction
      rw [if_neg (by rw [hc]; omega)]
  · intro a g g1 hnb he
    refine ⟨(commitEffect_spec he).2.2.1 hnb, ?_⟩
    rw [commit_eq_effect, he]
    rfl

/-- Witness for C5: the counter behavior at the concrete two-seat states,
one instance per conjunct with a hypothesis. -/
theorem action_economy_counter_witness :
    (next_turn exTwo).actions_remaining = 1
    ∧ exBribeCommit.actions_remaining = exBribe.actions_remaining + 1
    ∧ (consume_action exTwo).actions_remaining = exTwo.actions_remaining - 1
    ∧ exGatherEffect.actions_remaining = exTwo.actions_remaining
    ∧ commit (ActionCommit.gather 0) exTwo = some (finishAction exGatherEffect) :=
  ⟨action_economy_counter.2.1 exTwo (by decide) (by decide),
   action_economy_counter.2.2.1 exBribe 0 exBribeCommit (by decide) (by decide),
   (action_economy_counter.2.2.2.1 exTwo (by decide)).1,
   (action_economy_counter.2.2.2.2 (ActionCommit.gather 0) exTwo exGatherEffect
     (by decide) (by decide)).1,
   (action_economy_counter.2.2.2.2 (ActionCommit.gather 0) exTwo exGatherEffect
     (by decide) (by decide)).2⟩

end Coup
